import Mathlib

/-!
# Feature-flag reconciliation (`app/flags.go`)

A shallow embedding of `HasFlag`, `Flags` and `SetFlags` from `app/flags.go`.

The three functions talk to a record store through `app.Dao()`.  The store is
not part of the repository; it is modelled here as explicit state (`App`)
that is threaded through every call.  Each store call

* consumes one entry of a fault script (`App.faults`), so that any call may
  fail with any error, and
* appends one `Event` to `App.events`, so that statements such as
  "no delete was issued" can be made about the code.

The store enforces that the `name` of a flag is unique within the collection:
`SaveRecord` refuses a record whose `name` is already stored.
-/

namespace SecYourFlow

/-! ## Data model -/

/-- Go `error` values are represented by their message. -/
abbrev Err := String

/-- Modelled from the spec: the collection descriptor returned by
"resolveCollection" (`*models.Collection` of the store library). -/
structure Collection where
  name : String
deriving DecidableEq, Repr

/-- Modelled from the spec: a record of the store (`*models.Record` of the
store library): a store-assigned identity, the collection it belongs to, and
its field map. -/
structure Record where
  id : Nat
  collection : String
  data : List (String × String)
deriving DecidableEq, Repr

/-- Modelled from the spec: `record.GetString(key)` ("each record exposes a
getString(fieldName) accessor"): the value of a field, or the empty string
when the field is absent. -/
def Record.GetString (r : Record) (key : String) : String :=
  match r.data.lookup key with
  | some v => v
  | none => ""

/-- Modelled from the spec: `record.Set(key, value)`, which overwrites (or
creates) one entry of the field map handed to "insert". -/
def Record.Set (r : Record) (key value : String) : Record :=
  { r with data := (key, value) :: r.data.filter (fun kv => kv.1 != key) }

/-- Modelled from the spec: `models.NewRecord(collection)`, a record of the
collection with no fields that has not been given an identity by the store
yet. -/
def NewRecord (c : Collection) : Record :=
  { id := 0, collection := c.name, data := [] }

/-- Modelled from the spec: `migrations.FeatureCollectionName`, the fixed name
of the feature-flag collection ("a fixed collection name, treated as a
configuration constant").  The package `migrations` is not among the sources;
no statement below depends on the value. -/
def FeatureCollectionName : String := "features"

/-! ## The record store -/

/-- The store calls made by `flags.go`. -/
inductive Op where
  | findCollection (nameOrId : String)
  | findRecords (collection : String) (expr : Option (String × String))
  | delete (r : Record)
  | save (r : Record)
deriving DecidableEq, Repr

/-- One store call together with its outcome (`none` is success). -/
structure Event where
  op : Op
  err : Option Err
deriving DecidableEq, Repr

/-- Whether a store call is a delete. -/
def Op.isDelete : Op → Bool
  | .delete _ => true
  | _ => false

/-- Whether a store call is an insert. -/
def Op.isSave : Op → Bool
  | .save _ => true
  | _ => false

/-- Modelled from the spec: the `core.App` handle as seen by `flags.go`, i.e.
the RecordStore collaborator of the spec (query-all, query-by-field, resolve
collection, insert, delete) restricted to the feature collection, plus the
logger.

* `collection`: the feature collection, when it exists;
* `records`: the stored records, in store-iteration order;
* `nextId`: the identity the store gives to the next inserted record;
* `select`: how the store evaluates a `field = value` filter on a record
  (a faithful store has `select f v r = (r.GetString f == v)`; the field is
  left free so that false-positive matches can be expressed);
* `faults`: one entry per future store call, `some e` making that call fail
  with `e`; an exhausted script injects nothing;
* `events`: every store call issued so far, oldest first;
* `logged`: messages written through `app.Logger().Error`. -/
structure App where
  collection : Option Collection
  records : List Record
  nextId : Nat
  select : String → String → Record → Bool
  faults : List (Option Err)
  events : List Event
  logged : List String

/-- The error raised by the store when a collection does not exist. -/
def errNoRows : Err := "sql: no rows in result set"

/-- Resolving a collection name inside the store, without side effects. -/
def App.resolve (s : App) (nameOrId : String) : Except Err Collection :=
  match s.collection with
  | some c => if c.name == nameOrId then .ok c else .error errNoRows
  | none => .error errNoRows

/-- Modelled from the spec: bookkeeping shared by all store calls.  The next
entry of the fault script decides whether the call fails; otherwise the call
fails only with its own error `own`.  The call and its outcome are recorded. -/
def App.issue (s : App) (op : Op) (own : Option Err) : Option Err × App :=
  let err : Option Err :=
    match s.faults.head? with
    | some (some e) => some e
    | _ => own
  (err, { s with faults := s.faults.tail, events := s.events ++ [⟨op, err⟩] })

/-- Modelled from the spec: `app.Dao().FindCollectionByNameOrId(name)`
("resolveCollection: collection descriptor or not-found error"). -/
def FindCollectionByNameOrId (s : App) (nameOrId : String) : Except Err Collection × App :=
  match s.resolve nameOrId with
  | .error e0 =>
    match s.issue (.findCollection nameOrId) (some e0) with
    | (some e, s1) => (.error e, s1)
    | (none, s1) => (.error e0, s1)
  | .ok c =>
    match s.issue (.findCollection nameOrId) none with
    | (some e, s1) => (.error e, s1)
    | (none, s1) => (.ok c, s1)

/-- Modelled from the spec: `app.Dao().FindRecordsByExpr(collection, exprs...)`
("queryAll" without an expression, "queryByField" with one).  The query needs
the collection to exist; it returns the stored records, restricted by the
store's evaluation of the filter when one is given. -/
def FindRecordsByExpr (s : App) (collection : String) (expr : Option (String × String)) :
    Except Err (List Record) × App :=
  let own : Option Err :=
    match s.resolve collection with
    | .error e0 => some e0
    | .ok _ => none
  match s.issue (.findRecords collection expr) own with
  | (some e, s1) => (.error e, s1)
  | (none, s1) =>
    match expr with
    | none => (.ok s1.records, s1)
    | some (field, value) => (.ok (s1.records.filter (s1.select field value)), s1)

/-- Modelled from the spec: `app.Dao().DeleteRecord(record)` ("delete: record
handle, success or error").  On success the record is removed from the
store. -/
def DeleteRecord (s : App) (r : Record) : Option Err × App :=
  match s.issue (.delete r) none with
  | (some e, s1) => (some e, s1)
  | (none, s1) => (none, { s1 with records := s1.records.erase r })

/-- The error raised by the store when a save would give two records of the
feature collection the same `name`. -/
def errUnique : Err := "UNIQUE constraint failed: features.name"

/-- Modelled from the spec: `app.Dao().SaveRecord(record)` for a record made by
`models.NewRecord` ("insert: descriptor, field map, success or error").  The
store enforces that `name` is "unique within the collection": a save of a
record whose `name` is already stored is refused.  On success the record is
stored under a fresh identity, after the records already present. -/
def SaveRecord (s : App) (r : Record) : Option Err × App :=
  let own : Option Err :=
    if s.records.any (fun x => x.GetString "name" == r.GetString "name") then some errUnique
    else none
  match s.issue (.save r) own with
  | (some e, s1) => (some e, s1)
  | (none, s1) =>
    (none, { s1 with records := s1.records ++ [{ r with id := s1.nextId }],
                     nextId := s1.nextId + 1 })

/-- Modelled from the spec: `app.Logger().Error(msg)`, the "logging side
channel". -/
def App.logError (s : App) (msg : String) : App :=
  { s with logged := s.logged ++ [msg] }

/-! ## `flags.go` -/

/-- The loop of `HasFlag` (flags.go:21-27): return `true` at the first record
whose `name` equals `flag`, `false` when the records are exhausted. -/
def HasFlag.loop (flag : String) : List Record → Bool
  | [] => false
  | r :: rs => if r.GetString "name" == flag then true else HasFlag.loop flag rs

/-- `HasFlag` (flags.go:13-28). -/
def HasFlag (app : App) (flag : String) : Bool × App :=
  match FindRecordsByExpr app FeatureCollectionName (some ("name", flag)) with
  | (.error err, app1) => (false, app1.logError err)
  | (.ok records, app1) => (HasFlag.loop flag records, app1)

/-- The loop of `Flags` (flags.go:38-40): append each record's `name`. -/
def Flags.loop : List Record → List String → List String
  | [], flags => flags
  | r :: rs, flags => Flags.loop rs (flags ++ [r.GetString "name"])

/-- `Flags` (flags.go:30-43). -/
def Flags (app : App) : Except Err (List String) × App :=
  match FindRecordsByExpr app FeatureCollectionName none with
  | (.error err, app1) => (.error err, app1)
  | (.ok records, app1) => (.ok (Flags.loop records []), app1)

/-- The first loop of `SetFlags` (flags.go:58-69): delete every record whose
name is not in `args`, stopping at the first failing delete; collect the names
of the other records in `existingFlags`. -/
def SetFlags.deleteLoop (args : List String) :
    List Record → List String → App → Except Err (List String) × App
  | [], existingFlags, app => (.ok existingFlags, app)
  | featureRecord :: rest, existingFlags, app =>
    if !args.contains (featureRecord.GetString "name") then
      match DeleteRecord app featureRecord with
      | (some err, app1) => (.error err, app1)
      | (none, app1) => SetFlags.deleteLoop args rest existingFlags app1
    else
      SetFlags.deleteLoop args rest (existingFlags ++ [featureRecord.GetString "name"]) app

/-- The second loop of `SetFlags` (flags.go:71-83): for every element of
`args` that is not in `existingFlags`, save a new record with that name,
stopping at the first failing save. -/
def SetFlags.insertLoop (featureCollection : Collection) (existingFlags : List String) :
    List String → App → Option Err × App
  | [], app => (none, app)
  | arg :: rest, app =>
    if existingFlags.contains arg then
      SetFlags.insertLoop featureCollection existingFlags rest app
    else
      let record := (NewRecord featureCollection).Set "name" arg
      match SaveRecord app record with
      | (some err, app1) => (some err, app1)
      | (none, app1) => SetFlags.insertLoop featureCollection existingFlags rest app1

/-- `SetFlags` (flags.go:45-86). -/
def SetFlags (app : App) (args : List String) : Option Err × App :=
  match FindCollectionByNameOrId app FeatureCollectionName with
  | (.error err, app1) => (some err, app1)
  | (.ok featureCollection, app1) =>
    match FindRecordsByExpr app1 FeatureCollectionName none with
    | (.error err, app2) => (some err, app2)
    | (.ok featureRecords, app2) =>
      match SetFlags.deleteLoop args featureRecords [] app2 with
      | (.error err, app3) => (some err, app3)
      | (.ok existingFlags, app3) =>
        SetFlags.insertLoop featureCollection existingFlags args app3

/-! ## Observations used in the statements -/

/-- The `name` field of a record. -/
def Record.name (r : Record) : String := r.GetString "name"

/-- The names stored in the feature collection, in store order. -/
def App.names (s : App) : List String := s.records.map Record.name

/-- The store calls issued between state `s` and a later state `t`. -/
def App.issued (s t : App) : List Event := t.events.drop s.events.length

/-- A faithful store that exists, never fails and holds the given records. -/
def App.mk0 (records : List Record) (nextId : Nat) (faults : List (Option Err)) : App :=
  { collection := some ⟨FeatureCollectionName⟩
    records := records
    nextId := nextId
    select := fun f v r => r.GetString f == v
    faults := faults
    events := []
    logged := [] }

/-- A stored flag record. -/
def flagRecord (id : Nat) (name : String) : Record :=
  { id := id, collection := FeatureCollectionName, data := [("name", name)] }

/-- The record that `SetFlags` hands to `SaveRecord` for the name `arg`. -/
def newFlag (c : Collection) (arg : String) : Record :=
  (NewRecord c).Set "name" arg

/-- The records a store creates when the names are saved one after the other,
the first of them under identity `n`. -/
def freshRecords (c : Collection) : Nat → List String → List Record
  | _, [] => []
  | n, a :: rest => { newFlag c a with id := n } :: freshRecords c (n + 1) rest

/-- Whether `SetFlags` keeps a record: its name is in `args`. -/
def keeps (args : List String) (r : Record) : Bool := args.contains r.name

/-- The event of a successful delete. -/
def delOk (r : Record) : Event := ⟨.delete r, none⟩

/-- The event of a successful save of a new record named `a`. -/
def saveOk (c : Collection) (a : String) : Event := ⟨.save (newFlag c a), none⟩

/-- The state reached from `s` after the store calls `new` were issued and
left the store with the given records and next identity. -/
def App.after (s : App) (new : List Event) (records : List Record) (nextId : Nat) : App :=
  { s with records := records, nextId := nextId,
           events := s.events ++ new, faults := s.faults.drop new.length }

/-- The event of a successful collection lookup. -/
def fcOk : Event := ⟨.findCollection FeatureCollectionName, none⟩

/-- The event of a successful unfiltered query. -/
def frOk : Event := ⟨.findRecords FeatureCollectionName none, none⟩

/-- The names that `SetFlags` has to insert: the elements of `args` that are
not the name of a kept record. -/
def missing (args : List String) (records : List Record) : List String :=
  args.filter (fun a => !((records.filter (keeps args)).map Record.name).contains a)

/-- The delete events of a successful first loop. -/
def deletions (args : List String) (records : List Record) : List Event :=
  (records.filter (fun r => !keeps args r)).map delOk

/-- A store like `App.mk0` whose filtered query does not filter at all: it
returns every stored record, false positives included. -/
def App.sloppy (records : List Record) (nextId : Nat) : App :=
  { App.mk0 records nextId [] with select := fun _ _ _ => true }

/-- The records whose deletion succeeded, in the order of the deletes. -/
def deletedOk (evs : List Event) : List Record :=
  evs.filterMap (fun ev =>
    match ev.op, ev.err with
    | .delete r, none => some r
    | _, _ => none)

/-- Removing records from a store content one after the other, as
`DeleteRecord` does. -/
def eraseAll (records : List Record) (deleted : List Record) : List Record :=
  deleted.foldl List.erase records

/-! ## Basic facts -/

theorem newFlag_name (c : Collection) (a : String) (n : Nat) :
    ({ newFlag c a with id := n } : Record).name = a := by
  simp [Record.name, Record.GetString, newFlag, Record.Set, NewRecord, List.lookup]

theorem newFlag_name0 (c : Collection) (a : String) : (newFlag c a).name = a := by
  simp [Record.name, Record.GetString, newFlag, Record.Set, NewRecord, List.lookup]

theorem freshRecords_names (c : Collection) (n : Nat) (l : List String) :
    (freshRecords c n l).map Record.name = l := by
  induction l generalizing n with
  | nil => rfl
  | cons a l ih => simp [freshRecords, newFlag_name, ih]

/-- On a store whose identities are pairwise distinct, removing a stored
record is the same as removing the record with its identity. -/
theorem erase_eq_filter_id (records : List Record) (r : Record)
    (hnd : (records.map (fun x => x.id)).Nodup) (hr : r ∈ records) :
    records.erase r = records.filter (fun x => x.id != r.id) := by
  induction records with
  | nil => cases hr
  | cons x xs ih =>
    rw [List.map_cons, List.nodup_cons] at hnd
    by_cases hx : x = r
    · subst hx
      have hall : ∀ y ∈ xs, (y.id != x.id) = true := by
        intro y hy
        have : y.id ≠ x.id := fun h => hnd.1 (h ▸ List.mem_map_of_mem (fun z => z.id) hy)
        simpa using this
      simp [List.filter_cons, List.filter_eq_self.2 hall]
    · have hr1 : r ∈ xs := by
        rcases List.mem_cons.1 hr with h | h
        · exact absurd h.symm hx
        · exact h
      have hid : x.id ≠ r.id := fun h => hnd.1 (h ▸ List.mem_map_of_mem (fun z => z.id) hr1)
      have hxr : (x == r) = false := by simpa using hx
      simp [List.erase_cons, hxr, List.filter_cons, hid, ih hnd.2 hr1]

theorem DeleteRecord_cases (s : App) (r : Record) :
    (∃ e, DeleteRecord s r =
        (some e, { s with faults := s.faults.tail, events := s.events ++ [⟨.delete r, some e⟩] })) ∨
    DeleteRecord s r =
        (none, { s with faults := s.faults.tail, events := s.events ++ [delOk r],
                        records := s.records.erase r }) := by
  unfold DeleteRecord App.issue
  rcases h : s.faults.head? with _ | _ | e <;> simp [delOk]

theorem SaveRecord_cases (s : App) (r : Record) :
    (∃ e, SaveRecord s r =
        (some e, { s with faults := s.faults.tail, events := s.events ++ [⟨.save r, some e⟩] })) ∨
    SaveRecord s r =
        (none, { s with faults := s.faults.tail, events := s.events ++ [⟨.save r, none⟩],
                        records := s.records ++ [{ r with id := s.nextId }],
                        nextId := s.nextId + 1 }) := by
  unfold SaveRecord App.issue
  by_cases hu : s.records.any (fun x => x.GetString "name" == r.GetString "name") = true <;>
    rcases h : s.faults.head? with _ | _ | e <;> simp [hu]

/-! ## The two loops of `SetFlags` -/

/-- Everything the delete loop does, whether it finishes or stops at a failing
delete.  `K` are the records in front of the ones still to be visited. -/
theorem deleteLoop_spec (args : List String) (rs : List Record) :
    ∀ (ex : List String) (s : App) (K : List Record),
      s.records = K ++ rs → (∀ r ∈ K, keeps args r = true) →
      ∃ (done rest : List Record) (tail : List Event),
        rs = done ++ rest ∧
        (SetFlags.deleteLoop args rs ex s).2.records = K ++ done.filter (keeps args) ++ rest ∧
        (SetFlags.deleteLoop args rs ex s).2.events =
          s.events ++ (done.filter (fun r => !keeps args r)).map delOk ++ tail ∧
        (SetFlags.deleteLoop args rs ex s).2.nextId = s.nextId ∧
        (SetFlags.deleteLoop args rs ex s).2.select = s.select ∧
        (SetFlags.deleteLoop args rs ex s).2.collection = s.collection ∧
        (SetFlags.deleteLoop args rs ex s).2.logged = s.logged ∧
        (SetFlags.deleteLoop args rs ex s).2.faults =
          s.faults.drop ((done.filter (fun r => !keeps args r)).length + tail.length) ∧
        (∀ ex1, (SetFlags.deleteLoop args rs ex s).1 = .ok ex1 →
          rest = [] ∧ tail = [] ∧ ex1 = ex ++ (rs.filter (keeps args)).map Record.name) ∧
        (∀ e, (SetFlags.deleteLoop args rs ex s).1 = .error e →
          ∃ r rest1, rest = r :: rest1 ∧ keeps args r = false ∧ tail = [⟨.delete r, some e⟩]) := by
  induction rs with
  | nil =>
    intro ex s K hrec _
    refine ⟨[], [], [], ?_⟩
    simp [SetFlags.deleteLoop, hrec]
  | cons r rs ih =>
    intro ex s K hrec hK
    by_cases hk : keeps args r = true
    · have hk1 : args.contains (r.GetString "name") = true := hk
      obtain ⟨done, rest, tail, h1, h2, h3, h4, h5, h6, h7, h8, h9, h10⟩ :=
        ih (ex ++ [r.GetString "name"]) s (K ++ [r]) (by simp [hrec])
          (by
            intro x hx
            rcases List.mem_append.1 hx with hx | hx
            · exact hK x hx
            · simp at hx; subst hx; exact hk)
      refine ⟨r :: done, rest, tail, ?_⟩
      simp only [SetFlags.deleteLoop, hk1, Bool.not_true, Bool.false_eq_true, if_false]
      refine ⟨by simp [h1], ?_, ?_, h4, h5, h6, h7, ?_, ?_, h10⟩
      · simp [h2, List.filter_cons, hk]
      · simp [h3, List.filter_cons, hk]
      · simp [h8, List.filter_cons, hk]
      · intro ex1 hex
        obtain ⟨a, b, c⟩ := h9 ex1 hex
        refine ⟨a, b, ?_⟩
        simp [c, List.filter_cons, hk, Record.name]
    · have hk0 : keeps args r = false := by simpa using hk
      have hk1 : args.contains (r.GetString "name") = false := hk0
      have hrK : r ∉ K := fun hr => hk (hK r hr)
      rcases DeleteRecord_cases s r with ⟨e, hd⟩ | hd
      · refine ⟨[], r :: rs, [⟨.delete r, some e⟩], ?_⟩
        simp only [SetFlags.deleteLoop, hk1, Bool.not_false, if_true, hd]
        simp [hrec, hk0]
      · obtain ⟨done, rest, tail, h1, h2, h3, h4, h5, h6, h7, h8, h9, h10⟩ :=
          ih ex { s with faults := s.faults.tail, events := s.events ++ [delOk r],
                         records := s.records.erase r } K
            (by simp [hrec, List.erase_append_right _ hrK]) hK
        refine ⟨r :: done, rest, tail, ?_⟩
        simp only [SetFlags.deleteLoop, hk1, Bool.not_false, if_true, hd]
        refine ⟨by simp [h1], ?_, ?_, h4, h5, h6, h7, ?_, ?_, h10⟩
        · simp [h2, List.filter_cons, hk0]
        · simp [h3, List.filter_cons, hk0]
        · simp [h8, List.filter_cons, hk0, Nat.add_comm, Nat.add_left_comm]
        · intro ex1 hex
          obtain ⟨a, b, c⟩ := h9 ex1 hex
          refine ⟨a, b, ?_⟩
          simp [c, List.filter_cons, hk0]

/-- Everything the insert loop does, whether it finishes or stops at a failing
save. -/
theorem insertLoop_spec (c : Collection) (ex : List String) (args : List String) :
    ∀ (s : App),
      ∃ (done rest : List String) (tail : List Event),
        args.filter (fun a => !ex.contains a) = done ++ rest ∧
        (SetFlags.insertLoop c ex args s).2.records = s.records ++ freshRecords c s.nextId done ∧
        (SetFlags.insertLoop c ex args s).2.events = s.events ++ done.map (saveOk c) ++ tail ∧
        (SetFlags.insertLoop c ex args s).2.nextId = s.nextId + done.length ∧
        (SetFlags.insertLoop c ex args s).2.select = s.select ∧
        (SetFlags.insertLoop c ex args s).2.collection = s.collection ∧
        (SetFlags.insertLoop c ex args s).2.logged = s.logged ∧
        (SetFlags.insertLoop c ex args s).2.faults = s.faults.drop (done.length + tail.length) ∧
        ((SetFlags.insertLoop c ex args s).1 = none → rest = [] ∧ tail = []) ∧
        (∀ e, (SetFlags.insertLoop c ex args s).1 = some e →
          ∃ a rest1, rest = a :: rest1 ∧ tail = [⟨.save (newFlag c a), some e⟩]) := by
  induction args with
  | nil =>
    intro s
    refine ⟨[], [], [], ?_⟩
    simp [SetFlags.insertLoop, freshRecords]
  | cons a args ih =>
    intro s
    by_cases hk : ex.contains a = true
    · have hm : a ∈ ex := by simpa using hk
      obtain ⟨done, rest, tail, h1, h2⟩ := ih s
      refine ⟨done, rest, tail, ?_⟩
      simp only [SetFlags.insertLoop, hk, if_true]
      refine ⟨?_, h2⟩
      rw [← h1]
      simp [List.filter_cons, hm]
    · have hk0 : ex.contains a = false := by simpa using hk
      have hm : a ∉ ex := by simpa using hk
      rcases SaveRecord_cases s (newFlag c a) with ⟨e, hd⟩ | hd
      · refine ⟨[], a :: args.filter (fun a => !ex.contains a), [⟨.save (newFlag c a), some e⟩], ?_⟩
        simp only [SetFlags.insertLoop, hk0, Bool.false_eq_true, if_false]
        have hd1 : SaveRecord s ((NewRecord c).Set "name" a) = _ := hd
        simp only [hd1]
        simp [List.filter_cons, hm, freshRecords]
      · obtain ⟨done, rest, tail, h1, h2, h3, h4, h5, h6, h7, h8, h9, h10⟩ :=
          ih { s with faults := s.faults.tail, events := s.events ++ [⟨.save (newFlag c a), none⟩],
                      records := s.records ++ [{ newFlag c a with id := s.nextId }],
                      nextId := s.nextId + 1 }
        refine ⟨a :: done, rest, tail, ?_⟩
        simp only [SetFlags.insertLoop, hk0, Bool.false_eq_true, if_false]
        have hd1 : SaveRecord s ((NewRecord c).Set "name" a) = _ := hd
        simp only [hd1]
        refine ⟨?_, ?_, ?_, ?_, h5, h6, h7, ?_, h9, h10⟩
        · rw [List.cons_append, ← h1]
          simp [List.filter_cons, hm]
        · simp [h2, freshRecords]
        · simp [h3, saveOk]
        · simp [h4]; omega
        · simp only [h8, List.drop_tail, List.length_cons]
          congr 1; omega

/-! ## The phases of `SetFlags` -/

theorem App.eq_after (s t : App) (new : List Event) (records : List Record) (nextId : Nat)
    (h1 : t.records = records) (h2 : t.nextId = nextId) (h3 : t.events = s.events ++ new)
    (h4 : t.faults = s.faults.drop new.length) (h5 : t.select = s.select)
    (h6 : t.collection = s.collection) (h7 : t.logged = s.logged) :
    t = s.after new records nextId := by
  cases t; cases s
  simp only [App.after] at *
  simp [h1, h2, h3, h4, h5, h6, h7]

theorem App.after_after (s : App) (n1 n2 : List Event) (r1 r2 : List Record) (i1 i2 : Nat) :
    (s.after n1 r1 i1).after n2 r2 i2 = s.after (n1 ++ n2) r2 i2 := by
  simp [App.after, List.drop_drop, Nat.add_comm]

theorem FindCollection_cases (s : App) (n : String) :
    (∃ e, FindCollectionByNameOrId s n =
        (.error e, s.after [⟨.findCollection n, some e⟩] s.records s.nextId)) ∨
    (∃ c, s.resolve n = .ok c ∧ FindCollectionByNameOrId s n =
        (.ok c, s.after [⟨.findCollection n, none⟩] s.records s.nextId)) := by
  unfold FindCollectionByNameOrId App.issue App.after
  rcases hr : s.resolve n with e0 | c <;> rcases hf : s.faults.head? with _ | _ | e <;> simp

theorem FindRecords_cases (s : App) (n : String) (expr : Option (String × String)) :
    (∃ e, FindRecordsByExpr s n expr =
        (.error e, s.after [⟨.findRecords n expr, some e⟩] s.records s.nextId)) ∨
    (FindRecordsByExpr s n expr =
        (.ok (match expr with
              | none => s.records
              | some (field, value) => s.records.filter (s.select field value)),
         s.after [⟨.findRecords n expr, none⟩] s.records s.nextId)) := by
  unfold FindRecordsByExpr App.issue App.after
  rcases hr : s.resolve n with e0 | c <;> rcases hf : s.faults.head? with _ | _ | e <;>
    rcases expr with _ | ⟨f, v⟩ <;> simp

/-- The five ways a call of `SetFlags` can go: the collection lookup fails,
the query fails, a delete fails, a save fails, or everything succeeds.  Each
case gives the returned error and the complete resulting state. -/
theorem SetFlags_cases (s : App) (args : List String) :
    (∃ e, SetFlags s args =
        (some e, s.after [⟨.findCollection FeatureCollectionName, some e⟩] s.records s.nextId)) ∨
    (∃ e, SetFlags s args =
        (some e, s.after [fcOk, ⟨.findRecords FeatureCollectionName none, some e⟩]
                   s.records s.nextId)) ∨
    (∃ e done r rest, s.records = done ++ r :: rest ∧ keeps args r = false ∧
      SetFlags s args =
        (some e, s.after ([fcOk, frOk] ++ deletions args done ++ [⟨.delete r, some e⟩])
                   (done.filter (keeps args) ++ r :: rest) s.nextId)) ∨
    (∃ c e saved a pending, s.resolve FeatureCollectionName = .ok c ∧
      missing args s.records = saved ++ a :: pending ∧
      SetFlags s args =
        (some e, s.after ([fcOk, frOk] ++ deletions args s.records ++ saved.map (saveOk c) ++
                            [⟨.save (newFlag c a), some e⟩])
                   (s.records.filter (keeps args) ++ freshRecords c s.nextId saved)
                   (s.nextId + saved.length))) ∨
    (∃ c, s.resolve FeatureCollectionName = .ok c ∧
      SetFlags s args =
        (none, s.after ([fcOk, frOk] ++ deletions args s.records ++
                          (missing args s.records).map (saveOk c))
                 (s.records.filter (keeps args) ++ freshRecords c s.nextId (missing args s.records))
                 (s.nextId + (missing args s.records).length))) := by
  rcases FindCollection_cases s FeatureCollectionName with ⟨e, hfc⟩ | ⟨c, hc, hfc⟩
  · exact Or.inl ⟨e, by simp only [SetFlags, hfc]⟩
  right
  rcases FindRecords_cases (s.after [fcOk] s.records s.nextId) FeatureCollectionName none
    with ⟨e, hfr⟩ | hfr
  · refine Or.inl ⟨e, ?_⟩
    simp only [SetFlags, hfc]
    have hfr1 : FindRecordsByExpr (s.after [⟨.findCollection FeatureCollectionName, none⟩]
        s.records s.nextId) FeatureCollectionName none = _ := hfr
    simp only [hfr1, App.after_after]
    rfl
  right
  have hfr1 : FindRecordsByExpr (s.after [⟨.findCollection FeatureCollectionName, none⟩]
      s.records s.nextId) FeatureCollectionName none = _ := hfr
  have hstep : SetFlags s args =
      (match SetFlags.deleteLoop args s.records [] (s.after [fcOk, frOk] s.records s.nextId) with
       | (.error err, app3) => (some err, app3)
       | (.ok existingFlags, app3) => SetFlags.insertLoop c existingFlags args app3) := by
    simp only [SetFlags, hfc, hfr1, App.after_after]
    rfl
  obtain ⟨done, rest, tail, h1, h2, h3, h4, h5, h6, h7, h8, h9, h10⟩ :=
    deleteLoop_spec args s.records [] (s.after [fcOk, frOk] s.records s.nextId) []
      (by simp [App.after]) (by simp)
  rcases hdl : SetFlags.deleteLoop args s.records [] (s.after [fcOk, frOk] s.records s.nextId)
    with ⟨res, s3⟩
  rw [hdl] at h2 h3 h4 h5 h6 h7 h8 h9 h10
  simp only at h2 h3 h4 h5 h6 h7 h8 h9 h10
  rcases res with e | ex1
  · obtain ⟨r, rest1, hr1, hr2, hr3⟩ := h10 e rfl
    subst hr1 hr3
    refine Or.inl ⟨e, done, r, rest1, h1, hr2, ?_⟩
    rw [hstep, hdl]
    simp only
    have : s3 = (s.after [fcOk, frOk] s.records s.nextId).after
        (deletions args done ++ [⟨.delete r, some e⟩])
        (done.filter (keeps args) ++ r :: rest1) s.nextId := by
      apply App.eq_after
      · simpa using h2
      · simpa [App.after] using h4
      · simpa [deletions, List.append_assoc] using h3
      · simpa [deletions] using h8
      · exact h5
      · exact h6
      · exact h7
    rw [this, App.after_after]
    simp [List.append_assoc]
  · obtain ⟨hr1, hr2, hr3⟩ := h9 ex1 rfl
    subst hr1 hr2
    simp only [List.append_nil] at h1 h2 h3 h8
    subst h1
    have hs3 : s3 = s.after ([fcOk, frOk] ++ deletions args s.records)
        (s.records.filter (keeps args)) s.nextId := by
      have : s3 = (s.after [fcOk, frOk] s.records s.nextId).after
          (deletions args s.records) (s.records.filter (keeps args)) s.nextId := by
        apply App.eq_after
        · simpa using h2
        · simpa [App.after] using h4
        · simpa [deletions] using h3
        · simpa [deletions] using h8
        · exact h5
        · exact h6
        · exact h7
      rw [this, App.after_after]
    have hex : ex1 = (s.records.filter (keeps args)).map Record.name := by simpa using hr3
    right
    obtain ⟨saved, pending, itail, i1, i2, i3, i4, i5, i6, i7, i8, i9, i10⟩ :=
      insertLoop_spec c ex1 args s3
    have hstep2 : SetFlags s args = SetFlags.insertLoop c ex1 args s3 := by
      rw [hstep, hdl]
    have hmiss : missing args s.records = saved ++ pending := by
      rw [← i1, hex]; rfl
    have hfin : (SetFlags.insertLoop c ex1 args s3).2 = s3.after (saved.map (saveOk c) ++ itail)
        (s3.records ++ freshRecords c s3.nextId saved) (s3.nextId + saved.length) := by
      apply App.eq_after
      · exact i2
      · exact i4
      · simpa [List.append_assoc] using i3
      · simpa using i8
      · exact i5
      · exact i6
      · exact i7
    rcases hres : (SetFlags.insertLoop c ex1 args s3).1 with _ | e
    · obtain ⟨hp, ht⟩ := i9 hres
      subst hp ht
      refine Or.inr ⟨c, hc, ?_⟩
      rw [hstep2, Prod.ext_iff]
      refine ⟨hres, ?_⟩
      rw [hfin, hs3, App.after_after, hmiss]
      simp [App.after, List.append_assoc]
    · obtain ⟨a, p1, hp, ht⟩ := i10 e hres
      subst hp ht
      refine Or.inl ⟨c, e, saved, a, p1, hc, hmiss, ?_⟩
      rw [hstep2, Prod.ext_iff]
      refine ⟨hres, ?_⟩
      rw [hfin, hs3, App.after_after]
      simp [App.after, List.append_assoc]

/-! ## Consequences used by several statements -/

theorem issued_after (s : App) (new : List Event) (records : List Record) (nextId : Nat) :
    s.issued (s.after new records nextId) = new := by
  simp [App.issued, App.after]

theorem keeps_iff (args : List String) (r : Record) : keeps args r = true ↔ r.name ∈ args := by
  simp [keeps]

theorem keeps_false_iff (args : List String) (r : Record) :
    keeps args r = false ↔ r.name ∉ args := by
  simp [keeps]

theorem mem_keptNames (args : List String) (records : List Record) (a : String) :
    a ∈ (records.filter (keeps args)).map Record.name ↔ a ∈ args ∧ a ∈ records.map Record.name := by
  simp only [List.mem_map, List.mem_filter, keeps_iff]
  constructor
  · rintro ⟨r, ⟨hr, hk⟩, rfl⟩
    exact ⟨hk, r, hr, rfl⟩
  · rintro ⟨ha, r, hr, rfl⟩
    exact ⟨r, ⟨hr, ha⟩, rfl⟩

theorem mem_missing (args : List String) (records : List Record) (a : String) :
    a ∈ missing args records ↔ a ∈ args ∧ a ∉ records.map Record.name := by
  unfold missing
  rw [List.mem_filter]
  have := mem_keptNames args records a
  constructor
  · rintro ⟨ha, hn⟩
    refine ⟨ha, fun hmem => ?_⟩
    have : a ∈ (records.filter (keeps args)).map Record.name := this.2 ⟨ha, hmem⟩
    simp [this] at hn
  · rintro ⟨ha, hn⟩
    refine ⟨ha, ?_⟩
    have : a ∉ (records.filter (keeps args)).map Record.name := fun h => hn (this.1 h).2
    simp [this]

/-- A successful call of `SetFlags`: the complete resulting state. -/
theorem SetFlags_ok (s : App) (args : List String) (h : (SetFlags s args).1 = none) :
    ∃ c, s.resolve FeatureCollectionName = .ok c ∧
      (SetFlags s args).2 =
        s.after ([fcOk, frOk] ++ deletions args s.records ++ (missing args s.records).map (saveOk c))
          (s.records.filter (keeps args) ++ freshRecords c s.nextId (missing args s.records))
          (s.nextId + (missing args s.records).length) := by
  rcases SetFlags_cases s args with ⟨e, he⟩ | ⟨e, he⟩ | ⟨e, _, _, _, _, _, he⟩ |
    ⟨_, e, _, _, _, _, _, he⟩ | ⟨c, hc, he⟩
  · rw [he] at h; cases h
  · rw [he] at h; cases h
  · rw [he] at h; cases h
  · rw [he] at h; cases h
  · exact ⟨c, hc, by rw [he]⟩

theorem SetFlags_ok_names (s : App) (args : List String) (h : (SetFlags s args).1 = none) :
    (SetFlags s args).2.names =
      (s.records.filter (keeps args)).map Record.name ++ missing args s.records := by
  obtain ⟨c, _, ht⟩ := SetFlags_ok s args h
  rw [ht]
  simp [App.names, App.after, freshRecords_names]

theorem Flags_loop_eq (rs : List Record) (acc : List String) :
    Flags.loop rs acc = acc ++ rs.map Record.name := by
  induction rs generalizing acc with
  | nil => simp [Flags.loop]
  | cons r rs ih => simp [Flags.loop, ih, Record.name]

theorem HasFlag_loop_iff (flag : String) (rs : List Record) :
    HasFlag.loop flag rs = true ↔ ∃ r ∈ rs, r.GetString "name" = flag := by
  induction rs with
  | nil => simp [HasFlag.loop]
  | cons r rs ih =>
    by_cases h : r.GetString "name" = flag
    · simp [HasFlag.loop, h]
    · simp [HasFlag.loop, h, ih]

/-- A successful call of `Flags` returns the stored names. -/
theorem Flags_ok (t : App) (names : List String) (h : (Flags t).1 = .ok names) :
    names = t.names := by
  unfold Flags at h
  rcases FindRecords_cases t FeatureCollectionName none with ⟨e, hq⟩ | hq
  · rw [hq] at h; cases h
  · rw [hq] at h
    simp only [Flags_loop_eq, List.nil_append, Except.ok.injEq] at h
    rw [← h]; rfl

/-- After a successful `SetFlags s args` the stored names are, as a set, the
names in `args`. -/
theorem SetFlags_ok_mem_names (s : App) (args : List String) (h : (SetFlags s args).1 = none)
    (n : String) : n ∈ (SetFlags s args).2.names ↔ n ∈ args := by
  rw [SetFlags_ok_names s args h, List.mem_append, mem_keptNames, mem_missing]
  constructor
  · rintro (⟨h, _⟩ | ⟨h, _⟩) <;> exact h
  · intro h
    by_cases hn : n ∈ s.records.map Record.name
    · exact Or.inl ⟨h, hn⟩
    · exact Or.inr ⟨h, hn⟩

/-- With a successful query, `HasFlag` is decided by the returned records. -/
theorem HasFlag_ok_iff (s : App) (flag : String) (records : List Record)
    (h : (FindRecordsByExpr s FeatureCollectionName (some ("name", flag))).1 = .ok records) :
    (HasFlag s flag).1 = true ↔ ∃ r ∈ records, r.GetString "name" = flag := by
  unfold HasFlag
  rcases hq : FindRecordsByExpr s FeatureCollectionName (some ("name", flag)) with ⟨res, s1⟩
  rw [hq] at h
  simp only at h
  subst h
  exact HasFlag_loop_iff flag records

/-! ## Statements -/

/-- C1 (set equivalence): when `SetFlags s args` returns no error, the names
returned by a following successful `Flags` are exactly the names in `args`:
every returned name occurs in `args` and every name of `args` is returned. -/
theorem C1_setFlags_then_flags (s : App) (args names : List String)
    (hset : (SetFlags s args).1 = none)
    (hflags : (Flags (SetFlags s args).2).1 = .ok names) :
    ∀ n, n ∈ names ↔ n ∈ args := by
  intro n
  rw [Flags_ok _ names hflags]
  exact SetFlags_ok_mem_names s args hset n

/-- Witness for C1: the store holds `x` and `b`, the desired names are `a` and
`b`; afterwards `Flags` lists `b` and `a`, the same set in another order. -/
theorem C1_setFlags_then_flags_witness :
    (SetFlags (App.mk0 [flagRecord 1 "x", flagRecord 2 "b"] 3 []) ["a", "b"]).1 = none ∧
    (Flags (SetFlags (App.mk0 [flagRecord 1 "x", flagRecord 2 "b"] 3 []) ["a", "b"]).2).1
      = .ok ["b", "a"] ∧
    ("a" ∈ ["b", "a"] ↔ "a" ∈ ["a", "b"]) ∧ ("x" ∈ ["b", "a"] ↔ "x" ∈ ["a", "b"]) :=
  ⟨by decide, by rfl,
   C1_setFlags_then_flags (App.mk0 [flagRecord 1 "x", flagRecord 2 "b"] 3 []) ["a", "b"] ["b", "a"]
     (by decide) (by rfl) "a",
   C1_setFlags_then_flags (App.mk0 [flagRecord 1 "x", flagRecord 2 "b"] 3 []) ["a", "b"] ["b", "a"]
     (by decide) (by rfl) "x"⟩

/-- A save succeeds only for a name that no stored record has. -/
theorem SaveRecord_cases_fresh (s : App) (r : Record) :
    (∃ e, SaveRecord s r =
        (some e, { s with faults := s.faults.tail, events := s.events ++ [⟨.save r, some e⟩] })) ∨
    ((∀ x ∈ s.records, x.GetString "name" ≠ r.GetString "name") ∧
      SaveRecord s r =
        (none, { s with faults := s.faults.tail, events := s.events ++ [⟨.save r, none⟩],
                        records := s.records ++ [{ r with id := s.nextId }],
                        nextId := s.nextId + 1 })) := by
  unfold SaveRecord App.issue
  by_cases hu : s.records.any (fun x => x.GetString "name" == r.GetString "name") = true
  · rcases h : s.faults.head? with _ | _ | e <;> simp [hu]
  · have hfresh : ∀ x ∈ s.records, x.GetString "name" ≠ r.GetString "name" := by
      simpa using hu
    rcases h : s.faults.head? with _ | _ | e <;> simp [hu]
    · exact hfresh
    · exact hfresh

/-- A save keeps the stored names pairwise distinct, whatever its outcome. -/
theorem SaveRecord_names_nodup (s : App) (r : Record) (h : s.names.Nodup) :
    (SaveRecord s r).2.names.Nodup := by
  rcases SaveRecord_cases_fresh s r with ⟨e, hd⟩ | ⟨hfresh, hd⟩
  · rw [hd]; exact h
  · rw [hd]
    show ((s.records ++ [{ r with id := s.nextId }]).map Record.name).Nodup
    rw [List.map_append, List.nodup_append]
    refine ⟨h, by simp, ?_⟩
    intro n hn hn2
    simp only [List.map_cons, List.map_nil, List.mem_singleton] at hn2
    obtain ⟨x, hx, hxn⟩ := List.mem_map.1 hn
    apply hfresh x hx
    rw [hn2] at hxn
    exact hxn

/-- A delete keeps the stored names pairwise distinct, whatever its outcome. -/
theorem DeleteRecord_names_nodup (s : App) (r : Record) (h : s.names.Nodup) :
    (DeleteRecord s r).2.names.Nodup := by
  rcases DeleteRecord_cases s r with ⟨e, hd⟩ | hd
  · rw [hd]; exact h
  · rw [hd]
    exact h.sublist ((List.erase_sublist r s.records).map Record.name)

theorem deleteLoop_names_nodup (args : List String) (rs : List Record) :
    ∀ (ex : List String) (s : App), s.names.Nodup →
      (SetFlags.deleteLoop args rs ex s).2.names.Nodup := by
  induction rs with
  | nil => intro ex s h; exact h
  | cons r rs ih =>
    intro ex s h
    by_cases hk : args.contains (r.GetString "name") = true
    · simp only [SetFlags.deleteLoop, hk, Bool.not_true, Bool.false_eq_true, if_false]
      exact ih _ s h
    · have hk0 : args.contains (r.GetString "name") = false := by simpa using hk
      have hd := DeleteRecord_names_nodup s r h
      simp only [SetFlags.deleteLoop, hk0, Bool.not_false, if_true]
      rcases hdel : DeleteRecord s r with ⟨res, s1⟩
      rw [hdel] at hd
      rcases res with _ | e
      · exact ih ex s1 hd
      · exact hd

theorem insertLoop_names_nodup (c : Collection) (ex : List String) (args : List String) :
    ∀ (s : App), s.names.Nodup → (SetFlags.insertLoop c ex args s).2.names.Nodup := by
  induction args with
  | nil => intro s h; exact h
  | cons a args ih =>
    intro s h
    by_cases hk : ex.contains a = true
    · simp only [SetFlags.insertLoop, hk, if_true]
      exact ih s h
    · have hk0 : ex.contains a = false := by simpa using hk
      have hd := SaveRecord_names_nodup s ((NewRecord c).Set "name" a) h
      simp only [SetFlags.insertLoop, hk0, Bool.false_eq_true, if_false]
      rcases hsave : SaveRecord s ((NewRecord c).Set "name" a) with ⟨res, s1⟩
      rw [hsave] at hd
      rcases res with _ | e
      · exact ih s1 hd
      · exact hd

/-- `SetFlags` keeps the stored names pairwise distinct, whatever its
outcome. -/
theorem SetFlags_names_nodup (s : App) (args : List String) (h : s.names.Nodup) :
    (SetFlags s args).2.names.Nodup := by
  rcases FindCollection_cases s FeatureCollectionName with ⟨e, hfc⟩ | ⟨c, _, hfc⟩
  · simp only [SetFlags, hfc]; exact h
  rcases FindRecords_cases (s.after [⟨.findCollection FeatureCollectionName, none⟩]
    s.records s.nextId) FeatureCollectionName none with ⟨e, hfr⟩ | hfr
  · simp only [SetFlags, hfc, hfr]; exact h
  · simp only [SetFlags, hfc, hfr]
    have h2 : ((s.after [⟨.findCollection FeatureCollectionName, none⟩] s.records s.nextId).after
        [⟨.findRecords FeatureCollectionName none, none⟩]
        (s.after [⟨.findCollection FeatureCollectionName, none⟩] s.records s.nextId).records
        (s.after [⟨.findCollection FeatureCollectionName, none⟩] s.records
          s.nextId).nextId).names.Nodup := h
    have hd := deleteLoop_names_nodup args
      (s.after [⟨.findCollection FeatureCollectionName, none⟩] s.records s.nextId).records [] _ h2
    rcases hdl : SetFlags.deleteLoop args
      (s.after [⟨.findCollection FeatureCollectionName, none⟩] s.records s.nextId).records [] _
      with ⟨res, s3⟩
    rw [hdl] at hd
    rcases res with e | ex1
    · exact hd
    · exact insertLoop_names_nodup c ex1 args s3 hd

/-- A desired list that repeats a name which is not stored yet: the second
save of the name is refused by the store, `SetFlags` returns that error and
one record of the name is stored. -/
theorem SetFlags_repeated_new_name :
    (SetFlags (App.mk0 [] 1 []) ["a", "a"]).1 = some errUnique ∧
    (SetFlags (App.mk0 [] 1 []) ["a", "a"]).2.records = [flagRecord 1 "a"] := by
  refine ⟨by decide, by decide⟩

/-- C2 (input treated as a set, names stay unique): on a store whose names are
pairwise distinct, for every desired list, repeated names included, after
`SetFlags` returns no error the stored names are pairwise distinct and the
store holds exactly one record for each name in `args` and none for any other
name. -/
theorem C2_setFlags_keeps_names_unique (s : App) (args : List String)
    (hnd : s.names.Nodup) (hset : (SetFlags s args).1 = none) :
    (SetFlags s args).2.names.Nodup ∧
    (∀ n, (SetFlags s args).2.names.count n = if n ∈ args then 1 else 0) := by
  have hfin := SetFlags_names_nodup s args hnd
  refine ⟨hfin, fun n => ?_⟩
  have hmem := SetFlags_ok_mem_names s args hset n
  by_cases hn : n ∈ args
  · rw [if_pos hn]
    exact List.count_eq_one_of_mem hfin (hmem.2 hn)
  · rw [if_neg hn]
    exact List.count_eq_zero_of_not_mem (fun h => hn (hmem.1 h))

/-- Witness for C2: the store holds `a`, the desired list `a, a, b` repeats
`a`; the call succeeds and the store holds one `a` and one `b`. -/
theorem C2_setFlags_keeps_names_unique_witness :
    (App.mk0 [flagRecord 1 "a"] 2 []).names.Nodup ∧
    (SetFlags (App.mk0 [flagRecord 1 "a"] 2 []) ["a", "a", "b"]).1 = none ∧
    (SetFlags (App.mk0 [flagRecord 1 "a"] 2 []) ["a", "a", "b"]).2.names = ["a", "b"] ∧
    (SetFlags (App.mk0 [flagRecord 1 "a"] 2 []) ["a", "a", "b"]).2.names.count "a" =
      (if "a" ∈ ["a", "a", "b"] then 1 else 0) :=
  ⟨by decide, by decide, by decide,
   (C2_setFlags_keeps_names_unique (App.mk0 [flagRecord 1 "a"] 2 []) ["a", "a", "b"]
      (by decide) (by decide)).2 "a"⟩

theorem mem_deletions (args : List String) (records : List Record) (ev : Event) :
    ev ∈ deletions args records ↔ ∃ r ∈ records, keeps args r = false ∧ ev = delOk r := by
  simp only [deletions, List.mem_map, List.mem_filter]
  constructor
  · rintro ⟨r, ⟨hr, hk⟩, rfl⟩
    exact ⟨r, hr, by simpa using hk, rfl⟩
  · rintro ⟨r, hr, hk, rfl⟩
    exact ⟨r, ⟨hr, by simp [hk]⟩, rfl⟩

/-- After a successful `SetFlags s args` every stored record is kept by
`args`, and nothing is missing. -/
theorem SetFlags_ok_settled (s : App) (args : List String) (h : (SetFlags s args).1 = none) :
    (∀ r ∈ (SetFlags s args).2.records, keeps args r = true) ∧
    missing args (SetFlags s args).2.records = [] := by
  have hnames := SetFlags_ok_names s args h
  obtain ⟨c, _, ht⟩ := SetFlags_ok s args h
  constructor
  · intro r hr
    rw [ht] at hr
    simp only [App.after, List.mem_append, List.mem_filter] at hr
    rcases hr with ⟨_, hk⟩ | hr
    · exact hk
    · have : r.name ∈ (freshRecords c s.nextId (missing args s.records)).map Record.name :=
        List.mem_map_of_mem _ hr
      rw [freshRecords_names] at this
      exact (keeps_iff _ _).2 ((mem_missing _ _ _).1 this).1
  · apply List.eq_nil_iff_forall_not_mem.2
    intro a ha
    obtain ⟨ha1, ha2⟩ := (mem_missing _ _ _).1 ha
    apply ha2
    show a ∈ (SetFlags s args).2.names
    rw [hnames, List.mem_append, mem_keptNames, mem_missing]
    by_cases hn : a ∈ s.records.map Record.name
    · exact Or.inl ⟨ha1, hn⟩
    · exact Or.inr ⟨ha1, hn⟩

/-- C3 (idempotence): when `SetFlags s S` returns no error, a second call with
the same `S` on the resulting state issues no delete and no save, and leaves
the stored records, the next identity and the collection as the first call
left them (whether or not the second call's lookups fail). -/
theorem C3_setFlags_idempotent (s : App) (S : List String) (h : (SetFlags s S).1 = none) :
    (∀ ev ∈ (SetFlags s S).2.issued (SetFlags (SetFlags s S).2 S).2,
      ev.op.isDelete = false ∧ ev.op.isSave = false) ∧
    (SetFlags (SetFlags s S).2 S).2.records = (SetFlags s S).2.records ∧
    (SetFlags (SetFlags s S).2 S).2.nextId = (SetFlags s S).2.nextId ∧
    (SetFlags (SetFlags s S).2 S).2.collection = (SetFlags s S).2.collection := by
  obtain ⟨hall, hmiss⟩ := SetFlags_ok_settled s S h
  generalize (SetFlags s S).2 = t at hall hmiss
  have hdel : deletions S t.records = [] := by
    apply List.eq_nil_iff_forall_not_mem.2
    intro ev hev
    obtain ⟨r, hr, hk, _⟩ := (mem_deletions _ _ _).1 hev
    rw [hall r hr] at hk; cases hk
  have hfil : t.records.filter (keeps S) = t.records := List.filter_eq_self.2 hall
  rcases SetFlags_cases t S with ⟨e, he⟩ | ⟨e, he⟩ | ⟨e, done, r, rest, hrec, hk, _⟩ |
    ⟨_, e, saved, a, pending, _, hm, _⟩ | ⟨c, _, he⟩
  · simp only [he, issued_after]; simp [App.after, Op.isDelete, Op.isSave]
  · simp only [he, issued_after]; simp [App.after, Op.isDelete, Op.isSave, fcOk]
  · rw [hall r (by simp [hrec])] at hk; cases hk
  · rw [hmiss] at hm; simp at hm
  · simp only [he, hdel, hmiss, hfil, issued_after]
    simp [App.after, Op.isDelete, Op.isSave, fcOk, frOk, freshRecords]

/-- Witness for C3: reconcile a store holding `x` and `b` to `a, b`, then call
again with `a, b`. -/
theorem C3_setFlags_idempotent_witness :
    (SetFlags (App.mk0 [flagRecord 1 "x", flagRecord 2 "b"] 3 []) ["a", "b"]).1 = none ∧
    (SetFlags (SetFlags (App.mk0 [flagRecord 1 "x", flagRecord 2 "b"] 3 []) ["a", "b"]).2
        ["a", "b"]).2.records =
      (SetFlags (App.mk0 [flagRecord 1 "x", flagRecord 2 "b"] 3 []) ["a", "b"]).2.records :=
  ⟨by decide,
   (C3_setFlags_idempotent (App.mk0 [flagRecord 1 "x", flagRecord 2 "b"] 3 []) ["a", "b"]
      (by decide)).2.1⟩

/-- C4 (minimal mutation): whatever the outcome of `SetFlags s args`, a stored
record whose name is in `args` is still stored afterwards, unchanged; it was
never handed to a delete, and no save was issued for a record of its name. -/
theorem C4_desired_record_untouched (s : App) (args : List String) (r : Record)
    (hr : r ∈ s.records) (hn : r.GetString "name" ∈ args) :
    r ∈ (SetFlags s args).2.records ∧
    (∀ ev ∈ s.issued (SetFlags s args).2, ev.op ≠ .delete r) ∧
    (∀ ev ∈ s.issued (SetFlags s args).2, ∀ x, ev.op = .save x →
      x.GetString "name" ≠ r.GetString "name") := by
  have hk : keeps args r = true := (keeps_iff _ _).2 hn
  have hdel : ∀ recs, ∀ ev ∈ deletions args recs,
      ev.op ≠ .delete r ∧ ∀ x, ev.op ≠ .save x := by
    intro recs ev hev
    obtain ⟨x, _, hx, rfl⟩ := (mem_deletions _ _ _).1 hev
    refine ⟨fun h => ?_, fun y h => by simp [delOk] at h⟩
    simp only [delOk, Op.delete.injEq] at h
    rw [h, hk] at hx; cases hx
  have hsave : ∀ c a, a ∈ missing args s.records → (newFlag c a).name ≠ r.name := by
    intro c a ha heq
    rw [newFlag_name0] at heq
    exact ((mem_missing _ _ _).1 ha).2 (heq ▸ List.mem_map_of_mem _ hr)
  rcases SetFlags_cases s args with ⟨e, he⟩ | ⟨e, he⟩ | ⟨e, done, r1, rest, hrec, hk1, he⟩ |
    ⟨c, e, saved, a, pending, _, hm, he⟩ | ⟨c, _, he⟩
  · simp only [he, issued_after]; simp [App.after, hr]
  · simp only [he, issued_after]; simp [App.after, hr, fcOk]
  · rw [he, issued_after]
    have hne : r1 ≠ r := fun h => by rw [h, hk] at hk1; cases hk1
    refine ⟨?_, ?_, ?_⟩
    · rw [hrec] at hr
      simp only [App.after, List.mem_append, List.mem_filter, List.mem_cons] at hr ⊢
      rcases hr with hr | hr
      · exact Or.inl ⟨hr, hk⟩
      · exact Or.inr hr
    · intro ev hev
      simp only [List.mem_append, List.mem_cons, List.mem_singleton, List.not_mem_nil,
        or_false] at hev
      rcases hev with ((rfl | rfl) | hev) | rfl
      · simp [fcOk]
      · simp [frOk]
      · exact (hdel _ ev hev).1
      · simpa using hne
    · intro ev hev x hx
      simp only [List.mem_append, List.mem_cons, List.mem_singleton, List.not_mem_nil,
        or_false] at hev
      rcases hev with ((rfl | rfl) | hev) | rfl
      · simp [fcOk] at hx
      · simp [frOk] at hx
      · exact absurd hx ((hdel _ ev hev).2 x)
      · simp at hx
  · rw [he, issued_after]
    have hsub : ∀ b, b ∈ saved ∨ b = a → b ∈ missing args s.records := by
      intro b hb; rw [hm]; rcases hb with hb | rfl <;> simp [*]
    refine ⟨?_, ?_, ?_⟩
    · simp [App.after, hr, hk]
    · intro ev hev
      simp only [List.mem_append, List.mem_cons, List.mem_singleton, List.not_mem_nil,
        or_false, List.mem_map] at hev
      rcases hev with (((rfl | rfl) | hev) | ⟨b, _, rfl⟩) | rfl
      · simp [fcOk]
      · simp [frOk]
      · exact (hdel _ ev hev).1
      · simp [saveOk]
      · simp
    · intro ev hev x hx
      simp only [List.mem_append, List.mem_cons, List.mem_singleton, List.not_mem_nil,
        or_false, List.mem_map] at hev
      rcases hev with (((rfl | rfl) | hev) | ⟨b, hb, rfl⟩) | rfl
      · simp [fcOk] at hx
      · simp [frOk] at hx
      · exact absurd hx ((hdel _ ev hev).2 x)
      · simp only [saveOk, Op.save.injEq] at hx
        subst hx
        exact hsave c b (hsub b (Or.inl hb))
      · simp only [Op.save.injEq] at hx
        subst hx
        exact hsave c a (hsub a (Or.inr rfl))
  · rw [he, issued_after]
    refine ⟨?_, ?_, ?_⟩
    · simp [App.after, hr, hk]
    · intro ev hev
      simp only [List.mem_append, List.mem_cons, List.mem_singleton, List.not_mem_nil,
        or_false, List.mem_map] at hev
      rcases hev with ((rfl | rfl) | hev) | ⟨b, _, rfl⟩
      · simp [fcOk]
      · simp [frOk]
      · exact (hdel _ ev hev).1
      · simp [saveOk]
    · intro ev hev x hx
      simp only [List.mem_append, List.mem_cons, List.mem_singleton, List.not_mem_nil,
        or_false, List.mem_map] at hev
      rcases hev with ((rfl | rfl) | hev) | ⟨b, hb, rfl⟩
      · simp [fcOk] at hx
      · simp [frOk] at hx
      · exact absurd hx ((hdel _ ev hev).2 x)
      · simp only [saveOk, Op.save.injEq] at hx
        subst hx
        exact hsave c b hb

/-- Witness for C4: the scenario of the spec, `SetFlags a` on an empty store
followed by `SetFlags a, b`; the record of `a` made by the first call is still
stored after the second. -/
theorem C4_desired_record_untouched_witness :
    flagRecord 1 "a" ∈ (SetFlags (App.mk0 [] 1 []) ["a"]).2.records ∧
    (flagRecord 1 "a").GetString "name" ∈ ["a", "b"] ∧
    flagRecord 1 "a" ∈ (SetFlags (SetFlags (App.mk0 [] 1 []) ["a"]).2 ["a", "b"]).2.records :=
  ⟨by decide, by decide,
   (C4_desired_record_untouched (SetFlags (App.mk0 [] 1 []) ["a"]).2 ["a", "b"]
      (flagRecord 1 "a") (by decide) (by decide)).1⟩

/-- C5 (symmetric difference): in a successful call of `SetFlags` a delete is
issued for a record exactly when the record was stored and its name is not in
`args`, and a save is issued for a name exactly when the name is in `args` and
no stored record had it; every store call of the run succeeded. -/
theorem C5_symmetric_difference (s : App) (args : List String)
    (h : (SetFlags s args).1 = none) :
    (∀ r, (∃ ev ∈ s.issued (SetFlags s args).2, ev.op = .delete r) ↔
      (r ∈ s.records ∧ r.GetString "name" ∉ args)) ∧
    (∀ n, (∃ ev ∈ s.issued (SetFlags s args).2, ∃ x, ev.op = .save x ∧ x.GetString "name" = n) ↔
      (n ∈ args ∧ n ∉ s.names)) ∧
    (∀ ev ∈ s.issued (SetFlags s args).2, ev.err = none) := by
  obtain ⟨c, _, ht⟩ := SetFlags_ok s args h
  rw [ht, issued_after]
  refine ⟨fun r => ⟨?_, ?_⟩, fun n => ⟨?_, ?_⟩, ?_⟩
  · rintro ⟨ev, hev, hop⟩
    simp only [List.mem_append, List.mem_cons, List.mem_singleton, List.not_mem_nil,
      or_false, List.mem_map] at hev
    rcases hev with ((rfl | rfl) | hev) | ⟨b, _, rfl⟩
    · simp [fcOk] at hop
    · simp [frOk] at hop
    · obtain ⟨x, hx, hk, rfl⟩ := (mem_deletions _ _ _).1 hev
      simp only [delOk, Op.delete.injEq] at hop
      subst hop
      exact ⟨hx, (keeps_false_iff _ _).1 hk⟩
    · simp [saveOk] at hop
  · rintro ⟨hr, hn⟩
    refine ⟨delOk r, ?_, rfl⟩
    simp only [List.mem_append]
    exact Or.inl (Or.inr ((mem_deletions _ _ _).2 ⟨r, hr, (keeps_false_iff _ _).2 hn, rfl⟩))
  · rintro ⟨ev, hev, x, hop, hx⟩
    simp only [List.mem_append, List.mem_cons, List.mem_singleton, List.not_mem_nil,
      or_false, List.mem_map] at hev
    rcases hev with ((rfl | rfl) | hev) | ⟨b, hb, rfl⟩
    · simp [fcOk] at hop
    · simp [frOk] at hop
    · obtain ⟨y, _, _, rfl⟩ := (mem_deletions _ _ _).1 hev
      simp [delOk] at hop
    · simp only [saveOk, Op.save.injEq] at hop
      subst hop
      have hb1 : (newFlag c b).name = b := newFlag_name0 c b
      have hb2 : n = b := by rw [← hx]; exact hb1
      subst hb2
      exact (mem_missing _ _ _).1 hb
  · rintro ⟨hn1, hn2⟩
    refine ⟨saveOk c n, ?_, newFlag c n, rfl, newFlag_name0 c n⟩
    simp only [List.mem_append, List.mem_map]
    exact Or.inr ⟨n, (mem_missing _ _ _).2 ⟨hn1, hn2⟩, rfl⟩
  · intro ev hev
    simp only [List.mem_append, List.mem_cons, List.mem_singleton, List.not_mem_nil,
      or_false, List.mem_map] at hev
    rcases hev with ((rfl | rfl) | hev) | ⟨b, _, rfl⟩
    · rfl
    · rfl
    · obtain ⟨y, _, _, rfl⟩ := (mem_deletions _ _ _).1 hev
      rfl
    · rfl

/-- Witness for C5: the store holds `x` and `b`, the desired names are `a` and
`b`; the record of `x` is deleted. -/
theorem C5_symmetric_difference_witness :
    (SetFlags (App.mk0 [flagRecord 1 "x", flagRecord 2 "b"] 3 []) ["a", "b"]).1 = none ∧
    ((∃ ev ∈ (App.mk0 [flagRecord 1 "x", flagRecord 2 "b"] 3 []).issued
        (SetFlags (App.mk0 [flagRecord 1 "x", flagRecord 2 "b"] 3 []) ["a", "b"]).2,
        ev.op = .delete (flagRecord 1 "x")) ↔
      (flagRecord 1 "x" ∈ (App.mk0 [flagRecord 1 "x", flagRecord 2 "b"] 3 []).records ∧
        (flagRecord 1 "x").GetString "name" ∉ ["a", "b"])) :=
  ⟨by decide,
   (C5_symmetric_difference (App.mk0 [flagRecord 1 "x", flagRecord 2 "b"] 3 []) ["a", "b"]
      (by decide)).1 (flagRecord 1 "x")⟩

/-- C6 (fail-closed lookup): when the filtered query of `HasFlag` fails,
`HasFlag` returns `false`; its result type carries no error, and the error is
only written to the logger. -/
theorem C6_hasFlag_fail_closed (s : App) (flag : String) (e : Err)
    (h : (FindRecordsByExpr s FeatureCollectionName (some ("name", flag))).1 = .error e) :
    (HasFlag s flag).1 = false ∧ (HasFlag s flag).2.logged = s.logged ++ [e] := by
  unfold HasFlag
  rcases FindRecords_cases s FeatureCollectionName (some ("name", flag)) with ⟨e1, hq⟩ | hq
  · rw [hq] at h ⊢
    simp only [Except.error.injEq] at h
    subst h
    simp [App.logError, App.after]
  · rw [hq] at h; cases h

/-- Witness for C6: the flag `test` is stored, but the query fails. -/
theorem C6_hasFlag_fail_closed_witness :
    (FindRecordsByExpr (App.mk0 [flagRecord 1 "test"] 2 [some "database is locked"])
      FeatureCollectionName (some ("name", "test"))).1 = .error "database is locked" ∧
    (HasFlag (App.mk0 [flagRecord 1 "test"] 2 [some "database is locked"]) "test").1 = false :=
  ⟨by rfl,
   (C6_hasFlag_fail_closed (App.mk0 [flagRecord 1 "test"] 2 [some "database is locked"]) "test"
      "database is locked" (by rfl)).1⟩

/-- C7 (exact match is re-verified): when the filtered query succeeds with
`records`, `HasFlag` returns `true` exactly when one of `records` has a `name`
field equal to `flag`; if every returned record has another name, the result
is `false`. -/
theorem C7_hasFlag_exact_match (s : App) (flag : String) (records : List Record)
    (h : (FindRecordsByExpr s FeatureCollectionName (some ("name", flag))).1 = .ok records) :
    ((HasFlag s flag).1 = true ↔ ∃ r ∈ records, r.GetString "name" = flag) ∧
    ((∀ r ∈ records, r.GetString "name" ≠ flag) → (HasFlag s flag).1 = false) := by
  have hiff := HasFlag_ok_iff s flag records h
  refine ⟨hiff, fun hall => ?_⟩
  cases hv : (HasFlag s flag).1
  · rfl
  · obtain ⟨r, hr, hn⟩ := hiff.1 hv
    exact absurd hn (hall r hr)

/-- Witness for C7: a store that answers the filter `name = test` with the
record named `Test`; `HasFlag` still returns `false`. -/
theorem C7_hasFlag_exact_match_witness :
    (FindRecordsByExpr (App.sloppy [flagRecord 1 "Test"] 2)
      FeatureCollectionName (some ("name", "test"))).1 = .ok [flagRecord 1 "Test"] ∧
    (HasFlag (App.sloppy [flagRecord 1 "Test"] 2) "test").1 = false :=
  ⟨by rfl,
   (C7_hasFlag_exact_match (App.sloppy [flagRecord 1 "Test"] 2) "test" [flagRecord 1 "Test"]
      (by rfl)).2 (by decide)⟩

/-- C8 (`SetFlags` decides `HasFlag`): when `SetFlags s args` returns no error,
the following filtered query succeeds, and the store's filter misses no record
whose name is `flag`, then `HasFlag` returns `true` if `flag` is in `args` and
`false` if it is not. -/
theorem C8_setFlags_decides_hasFlag (s : App) (args : List String) (flag : String)
    (records : List Record)
    (hset : (SetFlags s args).1 = none)
    (hquery : (FindRecordsByExpr (SetFlags s args).2 FeatureCollectionName
      (some ("name", flag))).1 = .ok records)
    (hfaithful : ∀ r, r.GetString "name" = flag → s.select "name" flag r = true) :
    (HasFlag (SetFlags s args).2 flag).1 = decide (flag ∈ args) := by
  have hiff := HasFlag_ok_iff _ flag records hquery
  have hmem := SetFlags_ok_mem_names s args hset flag
  have hsel : (SetFlags s args).2.select = s.select := by
    obtain ⟨c, _, ht⟩ := SetFlags_ok s args hset
    rw [ht]; rfl
  have hrecs : records = (SetFlags s args).2.records.filter (s.select "name" flag) := by
    rcases FindRecords_cases (SetFlags s args).2 FeatureCollectionName (some ("name", flag))
      with ⟨e1, hq⟩ | hq
    · rw [hq] at hquery; cases hquery
    · rw [hq] at hquery
      simp only [Except.ok.injEq] at hquery
      rw [← hquery, hsel]
  by_cases hin : flag ∈ args
  · have : flag ∈ (SetFlags s args).2.names := hmem.2 hin
    obtain ⟨r, hr, hn⟩ := List.mem_map.1 this
    have hn1 : r.GetString "name" = flag := hn
    rw [decide_eq_true hin]
    apply hiff.2
    refine ⟨r, ?_, hn1⟩
    rw [hrecs, List.mem_filter]
    exact ⟨hr, hfaithful r hn1⟩
  · rw [decide_eq_false hin]
    cases hv : (HasFlag (SetFlags s args).2 flag).1
    · rfl
    · obtain ⟨r, hr, hn⟩ := hiff.1 hv
      rw [hrecs, List.mem_filter] at hr
      exact absurd (hmem.1 (List.mem_map.2 ⟨r, hr.1, hn⟩)) hin

/-- Witness for C8: the test `TestHasFlag`, `SetFlags test` on an empty store
and then `HasFlag test`. -/
theorem C8_setFlags_decides_hasFlag_witness :
    (SetFlags (App.mk0 [] 1 []) ["test"]).1 = none ∧
    (HasFlag (SetFlags (App.mk0 [] 1 []) ["test"]).2 "test").1 = decide ("test" ∈ ["test"]) :=
  ⟨by decide,
   C8_setFlags_decides_hasFlag (App.mk0 [] 1 []) ["test"] "test" [flagRecord 1 "test"]
     (by decide) (by rfl) (fun r hr => by simp [App.mk0, hr])⟩

theorem deletedOk_deletions (args : List String) (records : List Record) :
    deletedOk (deletions args records) = records.filter (fun r => !keeps args r) := by
  unfold deletedOk deletions
  induction records.filter (fun r => !keeps args r) with
  | nil => rfl
  | cons r rs ih => simp [List.filterMap_cons, delOk, ih]

theorem eraseAll_deleted (args : List String) (done : List Record) :
    ∀ (K rest : List Record), (∀ r ∈ K, keeps args r = true) →
      eraseAll (K ++ done ++ rest) (done.filter (fun r => !keeps args r)) =
        K ++ done.filter (keeps args) ++ rest := by
  induction done with
  | nil => intro K rest _; simp [eraseAll]
  | cons x done ih =>
    intro K rest hK
    by_cases hk : keeps args x = true
    · have := ih (K ++ [x]) rest (by
        intro r hr
        rcases List.mem_append.1 hr with hr | hr
        · exact hK r hr
        · simp at hr; subst hr; exact hk)
      simpa [List.filter_cons, hk] using this
    · have hk0 : keeps args x = false := by simpa using hk
      have hxK : x ∉ K := fun hx => hk (hK x hx)
      have := ih K rest hK
      simp only [List.filter_cons, hk0, Bool.not_false, if_true, eraseAll, List.foldl_cons,
        Bool.false_eq_true, if_false]
      rw [List.append_assoc, List.erase_append_right _ hxK]
      simp only [List.cons_append, List.erase_cons_head]
      rw [← List.append_assoc]
      exact this

/-- In every run of `SetFlags` the deletes come before the saves: the store
calls split into a first part without saves and a second part without
deletes. -/
theorem SetFlags_deletes_before_saves (s : App) (args : List String) :
    ∃ l1 l2, s.issued (SetFlags s args).2 = l1 ++ l2 ∧
      (∀ ev ∈ l1, ev.op.isSave = false) ∧ (∀ ev ∈ l2, ev.op.isDelete = false) := by
  have hdels : ∀ recs, ∀ ev ∈ [fcOk, frOk] ++ deletions args recs, ev.op.isSave = false := by
    intro recs ev hev
    simp only [List.mem_append, List.mem_cons, List.mem_singleton, List.not_mem_nil,
      or_false] at hev
    rcases hev with (rfl | rfl) | hev
    · rfl
    · rfl
    · obtain ⟨x, _, _, rfl⟩ := (mem_deletions _ _ _).1 hev
      rfl
  rcases SetFlags_cases s args with ⟨e1, he⟩ | ⟨e1, he⟩ | ⟨e1, done, r1, rest, _, _, he⟩ |
    ⟨c, e1, saved, a, pending, _, _, he⟩ | ⟨c, _, he⟩
  · refine ⟨[⟨.findCollection FeatureCollectionName, some e1⟩], [],
      by simp only [he, issued_after, List.append_nil], ?_, by simp⟩
    simp [Op.isSave]
  · refine ⟨[fcOk, ⟨.findRecords FeatureCollectionName none, some e1⟩], [],
      by simp only [he, issued_after, List.append_nil], ?_, by simp⟩
    simp [Op.isSave, fcOk]
  · refine ⟨[fcOk, frOk] ++ deletions args done ++ [⟨.delete r1, some e1⟩], [],
      by simp only [he, issued_after, List.append_nil], ?_, by simp⟩
    intro ev hev
    rcases List.mem_append.1 hev with hev | hev
    · exact hdels _ ev hev
    · simp only [List.mem_singleton] at hev
      subst hev
      rfl
  · refine ⟨[fcOk, frOk] ++ deletions args s.records,
      saved.map (saveOk c) ++ [⟨.save (newFlag c a), some e1⟩],
      by simp only [he, issued_after, List.append_assoc], hdels _, ?_⟩
    intro ev hev
    simp only [List.mem_append, List.mem_map, List.mem_singleton] at hev
    rcases hev with ⟨b, _, rfl⟩ | rfl <;> rfl
  · refine ⟨[fcOk, frOk] ++ deletions args s.records, (missing args s.records).map (saveOk c),
      by simp only [he, issued_after], hdels _, ?_⟩
    intro ev hev
    simp only [List.mem_map] at hev
    obtain ⟨b, _, rfl⟩ := hev
    rfl

/-- C9 (deletes before saves; a failing delete short-circuits): in every run
of `SetFlags s args` all deletes are issued before all saves.  If one of the
store calls is a delete of `r` that fails with `e`, then `SetFlags` returns
`e`; no save was issued; the failing delete is the last store call, all
deletes before it succeeded and were issued in store order; and the store
holds the prior records minus exactly those successfully deleted (the record
`r` and every record after it are still stored, the identity counter is
unchanged). -/
theorem C9_delete_failure_short_circuits (s : App) (args : List String) (r : Record) (e : Err) :
    (∃ l1 l2, s.issued (SetFlags s args).2 = l1 ++ l2 ∧
      (∀ ev ∈ l1, ev.op.isSave = false) ∧ (∀ ev ∈ l2, ev.op.isDelete = false)) ∧
    ((⟨.delete r, some e⟩ : Event) ∈ s.issued (SetFlags s args).2 →
      (SetFlags s args).1 = some e ∧
      (∀ ev ∈ s.issued (SetFlags s args).2, ev.op.isSave = false) ∧
      (∃ done rest, s.records = done ++ r :: rest ∧
        s.issued (SetFlags s args).2 =
          [fcOk, frOk] ++ deletions args done ++ [⟨.delete r, some e⟩] ∧
        (SetFlags s args).2.records = done.filter (keeps args) ++ r :: rest) ∧
      (SetFlags s args).2.records =
        eraseAll s.records (deletedOk (s.issued (SetFlags s args).2)) ∧
      (SetFlags s args).2.nextId = s.nextId) := by
  refine ⟨SetFlags_deletes_before_saves s args, fun h => ?_⟩
  have hnodel : ∀ recs, (⟨.delete r, some e⟩ : Event) ∉ deletions args recs := by
    intro recs hmem
    obtain ⟨x, _, _, hx⟩ := (mem_deletions _ _ _).1 hmem
    simp [delOk] at hx
  rcases SetFlags_cases s args with ⟨e1, he⟩ | ⟨e1, he⟩ | ⟨e1, done, r1, rest, hrec, hk1, he⟩ |
    ⟨c, e1, saved, a, pending, _, hm, he⟩ | ⟨c, _, he⟩
  · simp only [he, issued_after] at h; simp at h
  · simp only [he, issued_after] at h; simp [fcOk] at h
  · simp only [he, issued_after] at h ⊢
    simp only [List.mem_append, List.mem_cons, List.mem_singleton, List.not_mem_nil,
      or_false] at h
    rcases h with ((h | h) | h) | h
    · simp [fcOk] at h
    · simp [frOk] at h
    · exact absurd h (hnodel _)
    · simp only [Event.mk.injEq, Op.delete.injEq, Option.some.injEq] at h
      obtain ⟨rfl, rfl⟩ := h
      refine ⟨rfl, ?_, ⟨done, rest, hrec, rfl, rfl⟩, ?_, rfl⟩
      · intro ev hev
        simp only [List.mem_append, List.mem_cons, List.mem_singleton, List.not_mem_nil,
          or_false] at hev
        rcases hev with ((rfl | rfl) | hev) | rfl
        · rfl
        · rfl
        · obtain ⟨x, _, _, rfl⟩ := (mem_deletions _ _ _).1 hev
          rfl
        · rfl
      · have hd : deletedOk ([fcOk, frOk] ++ deletions args done ++ [⟨.delete r, some e⟩]) =
            done.filter (fun x => !keeps args x) := by
          have := deletedOk_deletions args done
          unfold deletedOk at this ⊢
          simp [List.filterMap_append, List.filterMap_cons, fcOk, frOk, this]
        rw [hd, hrec]
        have := eraseAll_deleted args done [] (r :: rest) (by simp)
        simpa [App.after] using this.symm
  · simp only [he, issued_after] at h
    simp only [List.mem_append, List.mem_cons, List.mem_singleton, List.not_mem_nil,
      or_false, List.mem_map] at h
    rcases h with (((h | h) | h) | ⟨b, _, h⟩) | h
    · simp [fcOk] at h
    · simp [frOk] at h
    · exact absurd h (hnodel _)
    · simp [saveOk] at h
    · simp at h
  · simp only [he, issued_after] at h
    simp only [List.mem_append, List.mem_cons, List.mem_singleton, List.not_mem_nil,
      or_false, List.mem_map] at h
    rcases h with ((h | h) | h) | ⟨b, _, h⟩
    · simp [fcOk] at h
    · simp [frOk] at h
    · exact absurd h (hnodel _)
    · simp [saveOk] at h

/-- Witness for C9: the store holds `x`, `y`, `b`, only `b` is desired; the
delete of `x` succeeds and the delete of `y` fails.  `SetFlags` returns the
error and the store holds `y` and `b`. -/
theorem C9_delete_failure_short_circuits_witness :
    (⟨.delete (flagRecord 2 "y"), some "database is locked"⟩ : Event) ∈
      (App.mk0 [flagRecord 1 "x", flagRecord 2 "y", flagRecord 3 "b"] 4
        [none, none, none, some "database is locked"]).issued
      (SetFlags (App.mk0 [flagRecord 1 "x", flagRecord 2 "y", flagRecord 3 "b"] 4
        [none, none, none, some "database is locked"]) ["b", "c"]).2 ∧
    (SetFlags (App.mk0 [flagRecord 1 "x", flagRecord 2 "y", flagRecord 3 "b"] 4
        [none, none, none, some "database is locked"]) ["b", "c"]).2.records =
      [flagRecord 2 "y", flagRecord 3 "b"] ∧
    (SetFlags (App.mk0 [flagRecord 1 "x", flagRecord 2 "y", flagRecord 3 "b"] 4
        [none, none, none, some "database is locked"]) ["b", "c"]).1 =
      some "database is locked" :=
  ⟨by decide, by decide,
   ((C9_delete_failure_short_circuits
      (App.mk0 [flagRecord 1 "x", flagRecord 2 "y", flagRecord 3 "b"] 4
        [none, none, none, some "database is locked"]) ["b", "c"] (flagRecord 2 "y")
      "database is locked").2 (by decide)).1⟩

/-- C10 (lookup failures abort before any mutation): if resolving the feature
collection fails with `e`, or the collection is resolved and the query that
loads the stored records fails with `e`, then `SetFlags` returns `e`, issues
no delete and no save, and leaves the stored records and the identity counter
unchanged. -/
theorem C10_lookup_failure_aborts (s : App) (args : List String) (e : Err)
    (h : (FindCollectionByNameOrId s FeatureCollectionName).1 = .error e ∨
      ((∃ c, (FindCollectionByNameOrId s FeatureCollectionName).1 = .ok c) ∧
        (FindRecordsByExpr (FindCollectionByNameOrId s FeatureCollectionName).2
          FeatureCollectionName none).1 = .error e)) :
    (SetFlags s args).1 = some e ∧
    (SetFlags s args).2.records = s.records ∧
    (SetFlags s args).2.nextId = s.nextId ∧
    (∀ ev ∈ s.issued (SetFlags s args).2, ev.op.isDelete = false ∧ ev.op.isSave = false) := by
  rcases FindCollection_cases s FeatureCollectionName with ⟨e1, hfc⟩ | ⟨c, _, hfc⟩
  · have he : e1 = e := by
      rw [hfc] at h
      rcases h with h | ⟨⟨c, h⟩, _⟩
      · simpa using h
      · cases h
    subst he
    have hs : SetFlags s args = (some e1,
        s.after [⟨.findCollection FeatureCollectionName, some e1⟩] s.records s.nextId) := by
      simp only [SetFlags, hfc]
    simp only [hs, issued_after]
    simp [App.after, Op.isDelete, Op.isSave]
  · rw [hfc] at h
    rcases h with h | ⟨_, h⟩
    · cases h
    · rcases FindRecords_cases (s.after [⟨.findCollection FeatureCollectionName, none⟩]
        s.records s.nextId) FeatureCollectionName none with ⟨e2, hfr⟩ | hfr
      · have he : e2 = e := by
          rw [hfr] at h
          simpa using h
        subst he
        have hs : SetFlags s args = (some e2,
            s.after [fcOk, ⟨.findRecords FeatureCollectionName none, some e2⟩]
              s.records s.nextId) := by
          simp only [SetFlags, hfc, hfr, App.after_after]
          rfl
        simp only [hs, issued_after]
        simp [App.after, Op.isDelete, Op.isSave, fcOk]
      · rw [hfr] at h; cases h

/-- Witness for C10: a store without the feature collection, and a store whose
query fails; in both the stored record is still there. -/
theorem C10_lookup_failure_aborts_witness :
    ((SetFlags { App.mk0 [flagRecord 1 "x"] 2 [] with collection := none } ["a"]).1
        = some errNoRows ∧
      (SetFlags { App.mk0 [flagRecord 1 "x"] 2 [] with collection := none } ["a"]).2.records
        = [flagRecord 1 "x"]) ∧
    ((SetFlags (App.mk0 [flagRecord 1 "x"] 2 [none, some "database is locked"]) ["a"]).1
        = some "database is locked" ∧
      (SetFlags (App.mk0 [flagRecord 1 "x"] 2 [none, some "database is locked"]) ["a"]).2.records
        = [flagRecord 1 "x"]) :=
  ⟨⟨(C10_lookup_failure_aborts { App.mk0 [flagRecord 1 "x"] 2 [] with collection := none } ["a"]
        errNoRows (Or.inl (by rfl))).1,
    (C10_lookup_failure_aborts { App.mk0 [flagRecord 1 "x"] 2 [] with collection := none } ["a"]
        errNoRows (Or.inl (by rfl))).2.1⟩,
   ⟨(C10_lookup_failure_aborts (App.mk0 [flagRecord 1 "x"] 2 [none, some "database is locked"])
        ["a"] "database is locked" (Or.inr ⟨⟨⟨FeatureCollectionName⟩, by rfl⟩, by rfl⟩)).1,
    (C10_lookup_failure_aborts (App.mk0 [flagRecord 1 "x"] 2 [none, some "database is locked"])
        ["a"] "database is locked" (Or.inr ⟨⟨⟨FeatureCollectionName⟩, by rfl⟩, by rfl⟩)).2.1⟩⟩

/-- The store calls of a run of `SetFlags`: a run that returns no error made
only successful calls; a run that returns `e` made successful calls followed
by one last call that failed with `e`. -/
theorem SetFlags_trace (s : App) (args : List String) :
    ∃ pre, (∀ ev ∈ pre, ev.err = none) ∧
      (((SetFlags s args).1 = none ∧ s.issued (SetFlags s args).2 = pre) ∨
       ∃ e op, (SetFlags s args).1 = some e ∧
         s.issued (SetFlags s args).2 = pre ++ [⟨op, some e⟩]) := by
  have hdels : ∀ recs, ∀ ev ∈ [fcOk, frOk] ++ deletions args recs, ev.err = none := by
    intro recs ev hev
    simp only [List.mem_append, List.mem_cons, List.mem_singleton, List.not_mem_nil,
      or_false] at hev
    rcases hev with (rfl | rfl) | hev
    · rfl
    · rfl
    · obtain ⟨x, _, _, rfl⟩ := (mem_deletions _ _ _).1 hev
      rfl
  have hsaves : ∀ c recs (l : List String),
      ∀ ev ∈ [fcOk, frOk] ++ deletions args recs ++ l.map (saveOk c), ev.err = none := by
    intro c recs l ev hev
    rcases List.mem_append.1 hev with hev | hev
    · exact hdels recs ev hev
    · obtain ⟨b, _, rfl⟩ := List.mem_map.1 hev
      rfl
  rcases SetFlags_cases s args with ⟨e1, he⟩ | ⟨e1, he⟩ | ⟨e1, done, r1, rest, _, _, he⟩ |
    ⟨c, e1, saved, a, pending, _, _, he⟩ | ⟨c, _, he⟩
  · refine ⟨[], by simp, Or.inr ⟨e1, .findCollection FeatureCollectionName, ?_, ?_⟩⟩
    · rw [he]
    · simp only [he, issued_after, List.nil_append]
  · refine ⟨[fcOk], by simp [fcOk],
      Or.inr ⟨e1, .findRecords FeatureCollectionName none, ?_, ?_⟩⟩
    · rw [he]
    · simp only [he, issued_after, List.singleton_append]
  · refine ⟨[fcOk, frOk] ++ deletions args done, hdels done,
      Or.inr ⟨e1, .delete r1, ?_, ?_⟩⟩
    · rw [he]
    · simp only [he, issued_after]
  · refine ⟨[fcOk, frOk] ++ deletions args s.records ++ saved.map (saveOk c),
      hsaves c s.records saved, Or.inr ⟨e1, .save (newFlag c a), ?_, ?_⟩⟩
    · rw [he]
    · simp only [he, issued_after]
  · refine ⟨[fcOk, frOk] ++ deletions args s.records ++ (missing args s.records).map (saveOk c),
      hsaves c s.records _, Or.inl ⟨?_, ?_⟩⟩
    · rw [he]
    · simp only [he, issued_after]

/-- C11 (errors are exactly store failures): `SetFlags s args` returns an
error exactly when one of the store calls it issued failed; the error it
returns is the error of that call, all calls before it succeeded (it is the
first failing call) and it is the last call issued. -/
theorem C11_error_iff_store_failure (s : App) (args : List String) :
    ((∃ e, (SetFlags s args).1 = some e) ↔
      ∃ ev ∈ s.issued (SetFlags s args).2, ∃ e, ev.err = some e) ∧
    (∀ e, (SetFlags s args).1 = some e →
      ∃ pre op, s.issued (SetFlags s args).2 = pre ++ [⟨op, some e⟩] ∧
        ∀ ev ∈ pre, ev.err = none) := by
  obtain ⟨pre, hpre, ⟨hnone, hiss⟩ | ⟨e1, op, hres, hiss⟩⟩ := SetFlags_trace s args
  · refine ⟨⟨?_, ?_⟩, ?_⟩
    · rintro ⟨e, he⟩
      rw [hnone] at he; cases he
    · rintro ⟨ev, hev, e, he⟩
      rw [hiss] at hev
      rw [hpre ev hev] at he; cases he
    · intro e he
      rw [hnone] at he; cases he
  · refine ⟨⟨fun _ => ⟨⟨op, some e1⟩, ?_, e1, rfl⟩, fun _ => ⟨e1, hres⟩⟩, ?_⟩
    · rw [hiss]; simp
    · intro e he
      rw [hres] at he
      simp only [Option.some.injEq] at he
      subst he
      exact ⟨pre, op, hiss, hpre⟩

/-- Witness for C11: a save fails after a delete succeeded; the returned error
is the error of the save. -/
theorem C11_error_iff_store_failure_witness :
    (SetFlags (App.mk0 [flagRecord 1 "x"] 2 [none, none, none, some "disk full"]) ["a"]).1
      = some "disk full" ∧
    ∃ pre op, (App.mk0 [flagRecord 1 "x"] 2 [none, none, none, some "disk full"]).issued
        (SetFlags (App.mk0 [flagRecord 1 "x"] 2 [none, none, none, some "disk full"]) ["a"]).2
        = pre ++ [⟨op, some "disk full"⟩] ∧ ∀ ev ∈ pre, ev.err = none :=
  ⟨by decide,
   (C11_error_iff_store_failure (App.mk0 [flagRecord 1 "x"] 2 [none, none, none, some "disk full"])
      ["a"]).2 "disk full" (by decide)⟩

/-- What `Flags` returns, in terms of the outcome of its query. -/
theorem Flags_fst (s : App) :
    (Flags s).1 =
      match (FindRecordsByExpr s FeatureCollectionName none).1 with
      | .error e => .error e
      | .ok records => .ok (records.map (fun r => r.GetString "name")) := by
  unfold Flags
  rcases hq : FindRecordsByExpr s FeatureCollectionName none with ⟨res, s1⟩
  rcases res with e | records
  · rfl
  · simp only [Flags_loop_eq, List.nil_append]
    rfl

/-- C12 (`Flags` lists the query result): when the query of `Flags` succeeds
with `records`, `Flags` returns the `name` field of each of them, in the same
order, nothing dropped, merged or reordered; the result has the length of
`records`. -/
theorem C12_flags_maps_records (s : App) (records : List Record)
    (h : (FindRecordsByExpr s FeatureCollectionName none).1 = .ok records) :
    (Flags s).1 = .ok (records.map (fun r => r.GetString "name")) ∧
    (records.map (fun r => r.GetString "name")).length = records.length := by
  refine ⟨?_, List.length_map _ _⟩
  rw [Flags_fst, h]

/-- Witness for C12: a store holding `b`, `a`, `b` (a repeated name, not
sorted); `Flags` returns `b, a, b`. -/
theorem C12_flags_maps_records_witness :
    (FindRecordsByExpr (App.mk0 [flagRecord 1 "b", flagRecord 2 "a", flagRecord 3 "b"] 4 [])
      FeatureCollectionName none).1
      = .ok [flagRecord 1 "b", flagRecord 2 "a", flagRecord 3 "b"] ∧
    (Flags (App.mk0 [flagRecord 1 "b", flagRecord 2 "a", flagRecord 3 "b"] 4 [])).1
      = .ok ([flagRecord 1 "b", flagRecord 2 "a", flagRecord 3 "b"].map
          (fun r => r.GetString "name")) :=
  ⟨by rfl,
   (C12_flags_maps_records (App.mk0 [flagRecord 1 "b", flagRecord 2 "a", flagRecord 3 "b"] 4 [])
      [flagRecord 1 "b", flagRecord 2 "a", flagRecord 3 "b"] (by rfl)).1⟩

/-- C13 (`Flags` propagates the query error): `Flags` returns the error `e`
exactly when its query fails with `e`; when the query succeeds on a store
without records, `Flags` returns the empty list and no error. -/
theorem C13_flags_error_iff_query_fails (s : App) :
    (∀ e, (Flags s).1 = .error e ↔
      (FindRecordsByExpr s FeatureCollectionName none).1 = .error e) ∧
    (s.records = [] →
      (∃ records, (FindRecordsByExpr s FeatureCollectionName none).1 = .ok records) →
      (Flags s).1 = .ok []) := by
  refine ⟨fun e => ?_, fun hempty hq => ?_⟩
  · rw [Flags_fst]
    rcases (FindRecordsByExpr s FeatureCollectionName none).1 with e1 | records
    · simp
    · simp
  · rw [Flags_fst]
    rcases FindRecords_cases s FeatureCollectionName none with ⟨e1, h1⟩ | h1
    · obtain ⟨records, hq⟩ := hq
      rw [h1] at hq; cases hq
    · rw [h1, hempty]
      rfl

/-- Witness for C13: an empty store that answers gives the empty list; the
same store with a failing query gives the error of the query. -/
theorem C13_flags_error_iff_query_fails_witness :
    (Flags (App.mk0 [] 1 [])).1 = .ok [] ∧
    ((Flags (App.mk0 [] 1 [some "database is locked"])).1 = .error "database is locked" ↔
      (FindRecordsByExpr (App.mk0 [] 1 [some "database is locked"])
        FeatureCollectionName none).1 = .error "database is locked") :=
  ⟨(C13_flags_error_iff_query_fails (App.mk0 [] 1 [])).2 (by rfl) ⟨[], by rfl⟩,
   (C13_flags_error_iff_query_fails (App.mk0 [] 1 [some "database is locked"])).1
      "database is locked"⟩

/-- C14 (retry after a partial failure): if `SetFlags s S` fails, leaving the
store in whatever partially updated state, and a second `SetFlags` with the
same `S` on that state returns no error, then the stored names are exactly
the names in `S`. -/
theorem C14_retry_converges (s : App) (S : List String) (e : Err)
    (hfail : (SetFlags s S).1 = some e)
    (hretry : (SetFlags (SetFlags s S).2 S).1 = none) :
    (∃ ev ∈ s.issued (SetFlags s S).2, ev.err = some e) ∧
    ∀ n, n ∈ (SetFlags (SetFlags s S).2 S).2.names ↔ n ∈ S := by
  refine ⟨?_, SetFlags_ok_mem_names _ S hretry⟩
  obtain ⟨pre, _, ⟨hnone, _⟩ | ⟨e1, op, hres, hiss⟩⟩ := SetFlags_trace s S
  · rw [hnone] at hfail; cases hfail
  · rw [hres] at hfail
    simp only [Option.some.injEq] at hfail
    subst hfail
    exact ⟨⟨op, some e1⟩, by rw [hiss]; simp, rfl⟩

/-- Witness for C14: the store holds `x`, `y`, `b` and `b, c` is desired; the
first call deletes `x` and fails on `y`; the second call succeeds and leaves
`b` and `c`. -/
theorem C14_retry_converges_witness :
    (SetFlags (App.mk0 [flagRecord 1 "x", flagRecord 2 "y", flagRecord 3 "b"] 4
        [none, none, none, some "database is locked"]) ["b", "c"]).2.records
      = [flagRecord 2 "y", flagRecord 3 "b"] ∧
    (SetFlags (SetFlags (App.mk0 [flagRecord 1 "x", flagRecord 2 "y", flagRecord 3 "b"] 4
        [none, none, none, some "database is locked"]) ["b", "c"]).2 ["b", "c"]).2.names
      = ["b", "c"] ∧
    ("y" ∈ (SetFlags (SetFlags (App.mk0 [flagRecord 1 "x", flagRecord 2 "y", flagRecord 3 "b"] 4
        [none, none, none, some "database is locked"]) ["b", "c"]).2 ["b", "c"]).2.names
      ↔ "y" ∈ ["b", "c"]) :=
  ⟨by decide, by decide,
   (C14_retry_converges (App.mk0 [flagRecord 1 "x", flagRecord 2 "y", flagRecord 3 "b"] 4
        [none, none, none, some "database is locked"]) ["b", "c"] "database is locked"
      (by decide) (by decide)).2 "y"⟩

/-- A store in which the feature collection exists and whose next call is not
made to fail answers its query. -/
theorem FindRecords_ok_of_up (s : App) (expr : Option (String × String))
    (hcoll : s.collection = some ⟨FeatureCollectionName⟩)
    (hup : ∀ e, s.faults.head? ≠ some (some e)) :
    ∃ records, (FindRecordsByExpr s FeatureCollectionName expr).1 = .ok records := by
  rcases FindRecords_cases s FeatureCollectionName expr with ⟨e1, h1⟩ | h1
  · exfalso
    have hev : (FindRecordsByExpr s FeatureCollectionName expr).2.events =
        s.events ++ [⟨.findRecords FeatureCollectionName expr, some e1⟩] := by rw [h1]; rfl
    unfold FindRecordsByExpr App.issue App.resolve at hev
    rw [hcoll] at hev
    rcases hf : s.faults.head? with _ | _ | e
    · rcases expr with _ | ⟨f, v⟩ <;> simp [hf] at hev
    · rcases expr with _ | ⟨f, v⟩ <;> simp [hf] at hev
    · exact hup e hf
  · exact ⟨_, by rw [h1]⟩

/-- C15 (empty store): on a store without records `HasFlag` returns `false`
for every flag name, and `Flags` returns the empty list and no error: whenever
its query succeeds, and so in particular on every store in which the feature
collection exists and whose next call is not made to fail. -/
theorem C15_empty_store (s : App) (flag : String) (hempty : s.records = []) :
    (HasFlag s flag).1 = false ∧
    (∀ records, (FindRecordsByExpr s FeatureCollectionName none).1 = .ok records →
      (Flags s).1 = .ok []) ∧
    (s.collection = some ⟨FeatureCollectionName⟩ → (∀ e, s.faults.head? ≠ some (some e)) →
      (Flags s).1 = .ok []) := by
  have hflags : ∀ records, (FindRecordsByExpr s FeatureCollectionName none).1 = .ok records →
      (Flags s).1 = .ok [] := by
    intro records hquery
    rw [Flags_fst]
    rcases FindRecords_cases s FeatureCollectionName none with ⟨e1, h1⟩ | h1
    · rw [h1] at hquery; cases hquery
    · rw [h1, hempty]
      rfl
  refine ⟨?_, hflags, fun hcoll hup => ?_⟩
  · unfold HasFlag
    rcases FindRecords_cases s FeatureCollectionName (some ("name", flag)) with ⟨e1, h1⟩ | h1
    · rw [h1]
    · rw [h1, hempty]
      rfl
  · obtain ⟨records, hq⟩ := FindRecords_ok_of_up s none hcoll hup
    exact hflags records hq

/-- Witness for C15: the tests `TestHasFlag` (stage 1) and `Test_flags` on a
fresh store. -/
theorem C15_empty_store_witness :
    (App.mk0 [] 1 []).records = [] ∧
    (HasFlag (App.mk0 [] 1 []) "test").1 = false ∧ (Flags (App.mk0 [] 1 [])).1 = .ok [] :=
  ⟨by rfl, (C15_empty_store (App.mk0 [] 1 []) "test" (by rfl)).1,
   (C15_empty_store (App.mk0 [] 1 []) "test" (by rfl)).2.2 (by rfl)
     (fun _ h => by simp [App.mk0] at h)⟩

/-- In a successful run of `SetFlags` the first loop ends with `existingFlags`
holding the names of the kept records, in store order. -/
theorem SetFlags_ok_existingFlags (s : App) (args : List String)
    (h : (SetFlags s args).1 = none) :
    (SetFlags.deleteLoop args s.records [] (s.after [fcOk, frOk] s.records s.nextId)).1 =
      .ok ((s.records.filter (keeps args)).map Record.name) := by
  rcases FindCollection_cases s FeatureCollectionName with ⟨e, hfc⟩ | ⟨c, _, hfc⟩
  · simp only [SetFlags, hfc] at h; cases h
  have hfr1 := FindRecords_cases (s.after [⟨.findCollection FeatureCollectionName, none⟩]
    s.records s.nextId) FeatureCollectionName none
  rcases hfr1 with ⟨e, hfr⟩ | hfr
  · simp only [SetFlags, hfc, hfr] at h; cases h
  have hstep : SetFlags s args =
      (match SetFlags.deleteLoop args s.records [] (s.after [fcOk, frOk] s.records s.nextId) with
       | (.error err, app3) => (some err, app3)
       | (.ok existingFlags, app3) => SetFlags.insertLoop c existingFlags args app3) := by
    simp only [SetFlags, hfc, hfr, App.after_after]
    rfl
  obtain ⟨done, rest, tail, _, _, _, _, _, _, _, _, h9, _⟩ :=
    deleteLoop_spec args s.records [] (s.after [fcOk, frOk] s.records s.nextId) []
      (by simp [App.after]) (by simp)
  rcases hdl : SetFlags.deleteLoop args s.records [] (s.after [fcOk, frOk] s.records s.nextId)
    with ⟨res, s3⟩
  rcases res with e | ex1
  · rw [hstep, hdl] at h; cases h
  · rw [hdl] at h9
    have := (h9 ex1 rfl).2.2
    simp only [List.nil_append] at this
    rw [this]

/-- C16 (exact effect of a successful `SetFlags`): after the two lookups the
run issues one successful delete for each stored record whose name is not in
`args`, in store order, and then one successful save for each element of
`args`, in the order and multiplicity of `args`, that is not the name of a
kept record; the first loop leaves in `existingFlags` the names of the kept
records in store order; the store ends with the kept records followed by the
new ones. -/
theorem C16_setFlags_exact_effect (s : App) (args : List String)
    (h : (SetFlags s args).1 = none) :
    ∃ c, s.resolve FeatureCollectionName = .ok c ∧
      s.issued (SetFlags s args).2 =
        [⟨.findCollection FeatureCollectionName, none⟩,
         ⟨.findRecords FeatureCollectionName none, none⟩] ++
        (s.records.filter (fun r => !args.contains (r.GetString "name"))).map
          (fun r => ⟨.delete r, none⟩) ++
        (args.filter (fun a =>
            !((s.records.filter (fun r => args.contains (r.GetString "name"))).map
                (fun r => r.GetString "name")).contains a)).map
          (fun a => ⟨.save ((NewRecord c).Set "name" a), none⟩) ∧
      (SetFlags.deleteLoop args s.records []
          (s.after [⟨.findCollection FeatureCollectionName, none⟩,
                    ⟨.findRecords FeatureCollectionName none, none⟩] s.records s.nextId)).1 =
        .ok ((s.records.filter (fun r => args.contains (r.GetString "name"))).map
              (fun r => r.GetString "name")) ∧
      (SetFlags s args).2.records =
        s.records.filter (fun r => args.contains (r.GetString "name")) ++
        freshRecords c s.nextId (args.filter (fun a =>
            !((s.records.filter (fun r => args.contains (r.GetString "name"))).map
                (fun r => r.GetString "name")).contains a)) := by
  obtain ⟨c, hc, ht⟩ := SetFlags_ok s args h
  refine ⟨c, hc, ?_, SetFlags_ok_existingFlags s args h, ?_⟩
  · rw [ht, issued_after]
    rfl
  · rw [ht]
    rfl

/-- Witness for C16: the store holds `x`, `b`, `y`, the desired list is
`a, b, c`: two deletes in store order, then the saves of `a` and `c` in the
order of the list. -/
theorem C16_setFlags_exact_effect_witness :
    (SetFlags (App.mk0 [flagRecord 1 "x", flagRecord 2 "b", flagRecord 3 "y"] 4 [])
      ["a", "b", "c"]).1 = none ∧
    (App.mk0 [flagRecord 1 "x", flagRecord 2 "b", flagRecord 3 "y"] 4 []).issued
      (SetFlags (App.mk0 [flagRecord 1 "x", flagRecord 2 "b", flagRecord 3 "y"] 4 [])
        ["a", "b", "c"]).2 =
      [fcOk, frOk, delOk (flagRecord 1 "x"), delOk (flagRecord 3 "y"),
       saveOk ⟨FeatureCollectionName⟩ "a", saveOk ⟨FeatureCollectionName⟩ "c"] ∧
    ∃ c, (App.mk0 [flagRecord 1 "x", flagRecord 2 "b", flagRecord 3 "y"] 4 []).resolve
        FeatureCollectionName = .ok c :=
  ⟨by decide, by decide,
   (C16_setFlags_exact_effect (App.mk0 [flagRecord 1 "x", flagRecord 2 "b", flagRecord 3 "y"] 4 [])
      ["a", "b", "c"] (by decide)).imp (fun _ hc => hc.1)⟩

/-- The state after `HasFlag`: that of its query, with the error logged when
the query failed. -/
theorem HasFlag_snd (s : App) (flag : String) :
    ∃ ev, ev.op = .findRecords FeatureCollectionName (some ("name", flag)) ∧
      ((HasFlag s flag).2 = s.after [ev] s.records s.nextId ∨
       ∃ e, (HasFlag s flag).2 = (s.after [ev] s.records s.nextId).logError e) := by
  unfold HasFlag
  rcases FindRecords_cases s FeatureCollectionName (some ("name", flag)) with ⟨e1, h1⟩ | h1
  · exact ⟨_, rfl, Or.inr ⟨e1, by rw [h1]⟩⟩
  · exact ⟨_, rfl, Or.inl (by rw [h1])⟩

/-- The state after `Flags`: that of its query. -/
theorem Flags_snd (s : App) :
    ∃ ev, ev.op = .findRecords FeatureCollectionName none ∧
      (Flags s).2 = s.after [ev] s.records s.nextId := by
  unfold Flags
  rcases FindRecords_cases s FeatureCollectionName none with ⟨e1, h1⟩ | h1
  · exact ⟨_, rfl, by rw [h1]⟩
  · exact ⟨_, rfl, by rw [h1]⟩

/-- C17 (lookups are read-only): whether their query succeeds or fails,
`HasFlag` and `Flags` issue exactly one store call, a query, hence no delete
and no save, and leave the stored records, the identity counter and the
collection as they were. -/
theorem C17_lookups_read_only (s : App) (flag : String) :
    ((HasFlag s flag).2.records = s.records ∧
      (HasFlag s flag).2.nextId = s.nextId ∧
      (HasFlag s flag).2.collection = s.collection ∧
      (∀ ev ∈ s.issued (HasFlag s flag).2, ev.op.isDelete = false ∧ ev.op.isSave = false) ∧
      (s.issued (HasFlag s flag).2).length = 1) ∧
    ((Flags s).2.records = s.records ∧
      (Flags s).2.nextId = s.nextId ∧
      (Flags s).2.collection = s.collection ∧
      (∀ ev ∈ s.issued (Flags s).2, ev.op.isDelete = false ∧ ev.op.isSave = false) ∧
      (s.issued (Flags s).2).length = 1) := by
  constructor
  · obtain ⟨ev, hop, ht | ⟨e, ht⟩⟩ := HasFlag_snd s flag
    · rw [ht, issued_after]
      refine ⟨rfl, rfl, rfl, ?_, rfl⟩
      intro x hx
      simp only [List.mem_singleton] at hx
      subst hx
      rw [hop]; exact ⟨rfl, rfl⟩
    · rw [ht]
      have hiss : s.issued ((s.after [ev] s.records s.nextId).logError e) = [ev] := by
        simp [App.issued, App.after, App.logError]
      rw [hiss]
      refine ⟨rfl, rfl, rfl, ?_, rfl⟩
      intro x hx
      simp only [List.mem_singleton] at hx
      subst hx
      rw [hop]; exact ⟨rfl, rfl⟩
  · obtain ⟨ev, hop, ht⟩ := Flags_snd s
    rw [ht, issued_after]
    refine ⟨rfl, rfl, rfl, ?_, rfl⟩
    intro x hx
    simp only [List.mem_singleton] at hx
    subst hx
    rw [hop]; exact ⟨rfl, rfl⟩

/-- C18 (`HasFlag` agrees with `Flags`): on a state where the filtered query
and the query of `Flags` succeed and the store's filter misses no stored
record whose name is `flag`, `HasFlag` returns `true` exactly when `flag` is
in the list returned by `Flags`. -/
theorem C18_hasFlag_agrees_with_flags (s : App) (flag : String) (records : List Record)
    (names : List String)
    (hquery : (FindRecordsByExpr s FeatureCollectionName (some ("name", flag))).1 = .ok records)
    (hflags : (Flags s).1 = .ok names)
    (hfilter : ∀ r ∈ s.records, r.GetString "name" = flag → s.select "name" flag r = true) :
    (records.Sublist s.records) ∧
    ((HasFlag s flag).1 = true ↔ flag ∈ names) := by
  have hrecs : records = s.records.filter (s.select "name" flag) := by
    rcases FindRecords_cases s FeatureCollectionName (some ("name", flag)) with ⟨e1, hq⟩ | hq
    · rw [hq] at hquery; cases hquery
    · rw [hq] at hquery
      simp only [Except.ok.injEq] at hquery
      rw [← hquery]
  refine ⟨hrecs ▸ List.filter_sublist _, ?_⟩
  rw [HasFlag_ok_iff s flag records hquery, Flags_ok s names hflags]
  constructor
  · rintro ⟨r, hr, hn⟩
    rw [hrecs, List.mem_filter] at hr
    exact List.mem_map.2 ⟨r, hr.1, hn⟩
  · intro hmem
    obtain ⟨r, hr, hn⟩ := List.mem_map.1 hmem
    refine ⟨r, ?_, hn⟩
    rw [hrecs, List.mem_filter]
    exact ⟨hr, hfilter r hr hn⟩

/-- Witness for C18: a store holding `Test` and `test` whose filter returns
every record; `HasFlag test` is `true` and `test` is listed by `Flags`. -/
theorem C18_hasFlag_agrees_with_flags_witness :
    (Flags (App.sloppy [flagRecord 1 "Test", flagRecord 2 "test"] 3)).1 = .ok ["Test", "test"] ∧
    ((HasFlag (App.sloppy [flagRecord 1 "Test", flagRecord 2 "test"] 3) "test").1 = true ↔
      "test" ∈ ["Test", "test"]) :=
  ⟨by rfl,
   (C18_hasFlag_agrees_with_flags (App.sloppy [flagRecord 1 "Test", flagRecord 2 "test"] 3) "test"
      [flagRecord 1 "Test", flagRecord 2 "test"] ["Test", "test"] (by rfl) (by rfl)
      (fun _ _ _ => rfl)).2⟩

end SecYourFlow
